import Mathlib

/-!
Verification of the core logic of the nuls directory-listing tool
(src/main.rs): entry collection, git-status aggregation and scoping,
sorting, and size/time/table formatting.

The Rust code is shallowly embedded as executable Lean definitions.
Machine integers (u64, usize) are modelled as Nat (none of the verified
paths can overflow on realistic inputs and the source does unchecked
arithmetic), SystemTime as seconds-since-epoch Nat, f64 arithmetic in the
size formatter as exact rational arithmetic (exact for sizes below 2^53,
where u64-to-f64 conversion and the power-of-two division are lossless),
HashMap as an association list (order-independence of the one
order-sensitive consumer is proved separately), and Rust string values as
Lean strings manipulated through their character lists.  String slicing
by bytes coincides with slicing by characters on the ASCII prefixes the
code slices.  Subprocess results are modelled as an optional
success-flag/stdout pair: none models a spawn error, some with a false
flag models a non-success exit status.
-/

/-! ## String helpers (embedding Rust str operations structurally) -/

/-- Rust char::to_lowercase as used by str::to_lowercase, restricted to the
ASCII range that the verified properties exercise. -/
def lowerChar (c : Char) : Char :=
  if 65 ≤ c.toNat ∧ c.toNat ≤ 90 then Char.ofNat (c.toNat + 32) else c

/-- Rust str::to_lowercase (ASCII range). -/
def lowerStr (s : String) : String :=
  String.mk (s.data.map lowerChar)

/-- Rust str::starts_with for a string pattern. -/
def strStartsWith (s p : String) : Bool :=
  p.data.isPrefixOf s.data

/-- Rust str::ends_with for a string pattern. -/
def strEndsWith (s p : String) : Bool :=
  p.data.isSuffixOf s.data

/-- Whitespace test covering the ASCII whitespace Rust str::trim removes. -/
def isWhite (c : Char) : Bool :=
  c = ' ' || c = '\t' || c = '\n' || c = '\r'

/-- Rust str::trim (ASCII whitespace). -/
def trimStr (s : String) : String :=
  String.mk (((s.data.dropWhile isWhite).reverse.dropWhile isWhite).reverse)

/-- Rust byte slicing s[..n] (ASCII prefixes only are ever sliced). -/
def strTake (s : String) (n : Nat) : String :=
  String.mk (s.data.take n)

/-- Rust byte slicing s[n..] (ASCII prefixes only are ever sliced). -/
def strDrop (s : String) (n : Nat) : String :=
  String.mk (s.data.drop n)

/-- Splits a character list at every occurrence of the separator. -/
def splitOnChar (sep : Char) : List Char → List Char → List String
  | [], acc => [String.mk acc.reverse]
  | c :: cs, acc =>
    if c = sep then String.mk acc.reverse :: splitOnChar sep cs []
    else splitOnChar sep cs (c :: acc)

/-- Rust str::lines: split on newline, strip a trailing carriage return,
and ignore a final empty segment produced by a trailing newline. -/
def linesOf (s : String) : List String :=
  let ls := (splitOnChar '\n' s.data []).map fun l =>
    if strEndsWith l "\r" then String.mk (l.data.dropLast) else l
  match ls.getLast? with
  | some "" => ls.dropLast
  | _ => ls

/-- Rust Vec::join on strings. -/
def joinSep (sep : String) : List String → String
  | [] => ""
  | [x] => x
  | x :: xs => x ++ sep ++ joinSep sep xs

/-- The segment after the last occurrence of the rename arrow
" -> " in a character list, if the arrow occurs at all; this is the
second component of Rust rsplit_once applied to that pattern. -/
def afterLastArrow : List Char → Option (List Char)
  | [] => none
  | c :: rest =>
    match afterLastArrow rest with
    | some r => some r
    | none =>
      if [' ', '-', '>', ' '].isPrefixOf (c :: rest) then
        some ((c :: rest).drop 4)
      else none

/-- Rust u64::from_str restricted to plain digit strings, the only form
git numstat emits for text files. -/
def parseNat (s : String) : Option Nat :=
  if s.data ≠ [] ∧ s.data.all (fun c => c.isDigit) then
    some (s.data.foldl (fun acc c => acc * 10 + (c.toNat - 48)) 0)
  else none

/-! ## Color palette (main.rs mod palette) -/

namespace palette

def RESET : String := "\x1b[0m"
def BORDER : String := "\x1b[38;5;99m"
def HEADER : String := "\x1b[38;5;82m"
def INDEX : String := "\x1b[38;5;51m"
def TYPE : String := "\x1b[38;5;78m"
def SIZE : String := "\x1b[38;5;45m"
def MODIFIED : String := "\x1b[38;5;114m"
def MODIFIED_RECENT : String := "\x1b[38;5;82m"
def MODIFIED_SOON : String := "\x1b[38;5;148m"
def MODIFIED_HOURS : String := "\x1b[38;5;184m"
def MODIFIED_DAYS : String := "\x1b[38;5;208m"
def MODIFIED_WEEKS : String := "\x1b[38;5;203m"
def MODIFIED_OLD : String := "\x1b[38;5;244m"
def MODIFIED_FUTURE : String := "\x1b[38;5;111m"
def DIR : String := "\x1b[38;5;45m"
def FILE : String := "\x1b[38;5;252m"
def EXEC : String := "\x1b[38;5;197m"
def DOTFILE : String := "\x1b[38;5;179m"
def WARN : String := "\x1b[38;5;214m"
def GIT_DIRTY : String := "\x1b[38;5;214m"
def GIT_ADDED : String := "\x1b[38;5;77m"
def GIT_REMOVED : String := "\x1b[38;5;203m"
def GIT_CLEAN : String := "\x1b[38;5;240m"

/-- palette::paint wraps text in a color code and a reset code. -/
def paint (text color : String) : String :=
  color ++ text ++ RESET

end palette

/-! ## Data model (main.rs structs and enums) -/

/-- EntryType from main.rs. -/
inductive EntryType where
  | Dir
  | File
deriving DecidableEq, Repr

/-- Recency from main.rs. -/
inductive Recency where
  | JustNow
  | Seconds
  | Minutes
  | Hours
  | Days
  | Weeks
  | Months
  | Years
  | Future
  | Unknown
deriving DecidableEq, Repr

/-- GitStatus from main.rs. -/
structure GitStatus where
  added : Option Nat
  deleted : Option Nat
  dirty : Bool
  untracked : Bool
deriving DecidableEq, Repr

/-- EntryRow from main.rs. -/
structure EntryRow where
  name_plain : String
  entry_type_plain : String
  entry_type_colored : String
  size_plain : String
  size_colored : String
  modified_plain : String
  modified_colored : String
  modified_time : Option Nat
  name_with_git_colored : String
  name_with_git_plain : String
  is_dir : Bool
deriving DecidableEq, Repr

/-- Align from main.rs. -/
inductive Align where
  | Left
  | Right
deriving DecidableEq, Repr

/-- Result of one subprocess invocation: none models a failure to execute,
some carries the exit-status success flag and captured stdout. -/
structure CmdOut where
  success : Bool
  stdout : String
deriving DecidableEq, Repr

/-! ## Size formatter (main.rs format_size) -/

/-- The UNITS table of format_size. -/
def sizeUnits : List (String × Nat) :=
  [("B", 1), ("KB", 1024), ("MB", 1048576), ("GB", 1073741824),
   ("TB", 1099511627776)]

/-- The unit-selection loop of format_size: walk the table keeping the
last unit whose scale is at most the size, stopping at the first that is
not. -/
def chooseUnitAux (size : Nat) (unit : String × Nat) :
    List (String × Nat) → String × Nat
  | [] => unit
  | c :: rest => if c.2 ≤ size then chooseUnitAux size c rest else unit

def chooseUnit (size : Nat) : String × Nat :=
  chooseUnitAux size ("B", 1) sizeUnits

/-- Round-half-to-even to an integer, the rounding used by Rust float
formatting with a fixed number of decimals. -/
def roundHalfEven (q : ℚ) : ℤ :=
  if q - ⌊q⌋ < 1 / 2 then ⌊q⌋
  else if q - ⌊q⌋ > 1 / 2 then ⌊q⌋ + 1
  else if ⌊q⌋ % 2 = 0 then ⌊q⌋ else ⌊q⌋ + 1

/-- Rust formatting with one decimal place of a nonnegative value. -/
def fmtDec1 (q : ℚ) : String :=
  let n := roundHalfEven (q * 10)
  toString (n / 10) ++ "." ++ toString (n % 10)

/-- Rust formatting with no decimal places of a nonnegative value. -/
def fmtDec0 (q : ℚ) : String :=
  toString (roundHalfEven q)

/-- format_size from main.rs, with f64 arithmetic modelled exactly over
the rationals. -/
def format_size (size : Nat) : String :=
  let unit := chooseUnit size
  let value : ℚ := (size : ℚ) / (unit.2 : ℚ)
  let text := if value < 10 ∧ unit.1 ≠ "B" then fmtDec1 value else fmtDec0 value
  text ++ " " ++ unit.1

/-! ## Time bucketer (main.rs format_relative_time) -/

/-- The recency threshold chain of format_relative_time for a past
instant. -/
def recencyOfElapsed (secs : Nat) : Recency :=
  if secs < 5 then .JustNow
  else if secs < 60 then .Seconds
  else if secs < 3600 then .Minutes
  else if secs < 86400 then .Hours
  else if secs < 604800 then .Days
  else if secs < 2629746 then .Weeks
  else if secs < 31557600 then .Months
  else .Years

/-- format_relative_time from main.rs.  SystemTime is modelled as
seconds since the epoch; duration_since(ts) succeeds exactly when the
timestamp is not after now, and the error of the failing case carries the
opposite difference. -/
def format_relative_time (now ts : Nat) : String × Recency :=
  if ts ≤ now then
    let secs := now - ts
    let recency := recencyOfElapsed secs
    let text :=
      if secs < 5 then "just now"
      else
        let vu :=
          if secs < 60 then (secs, "second")
          else if secs < 3600 then (secs / 60, "minute")
          else if secs < 86400 then (secs / 3600, "hour")
          else if secs < 604800 then (secs / 86400, "day")
          else if secs < 2629746 then (secs / 604800, "week")
          else if secs < 31557600 then (secs / 2629746, "month")
          else (secs / 31557600, "year")
        toString vu.1 ++ " " ++ vu.2 ++ (if vu.1 = 1 then "" else "s") ++ " ago"
    (text, recency)
  else
    let secs := ts - now
    let vu :=
      if secs < 60 then (secs, "second")
      else if secs < 3600 then (secs / 60, "minute")
      else if secs < 86400 then (secs / 3600, "hour")
      else if secs < 604800 then (secs / 86400, "day")
      else (secs / 604800, "week")
    ("in " ++ toString vu.1 ++ " " ++ vu.2 ++ (if vu.1 = 1 then "" else "s"),
     Recency.Future)

/-! ## Name and time coloring (main.rs color_name, color_modified) -/

/-- color_name from main.rs. -/
def color_name (name : String) (t : EntryType) (isExec isHidden : Bool) :
    String :=
  match t with
  | .Dir => palette.paint name palette.DIR
  | .File =>
    if isHidden then palette.paint name palette.DOTFILE
    else if isExec then palette.paint name palette.EXEC
    else if strEndsWith name ".md" || strEndsWith name ".toml" then
      palette.paint name palette.WARN
    else palette.paint name palette.FILE

/-- color_modified from main.rs. -/
def color_modified (text : String) (recency : Recency) : String :=
  let color :=
    match recency with
    | .JustNow | .Seconds => palette.MODIFIED_RECENT
    | .Minutes => palette.MODIFIED_SOON
    | .Hours => palette.MODIFIED
    | .Days => palette.MODIFIED_HOURS
    | .Weeks => palette.MODIFIED_DAYS
    | .Months => palette.MODIFIED_WEEKS
    | .Years => palette.MODIFIED_OLD
    | .Future => palette.MODIFIED_FUTURE
    | .Unknown => palette.MODIFIED
  palette.paint text color

/-! ## Git status formatter (main.rs format_git) -/

/-- format_git from main.rs: the sequence of Vec pushes is written as
successive list extensions. -/
def format_git (status : GitStatus) : Option (String × String) :=
  if !status.dirty && !status.untracked then
    some ("", palette.paint "(clean)" palette.GIT_CLEAN)
  else
    let parts : List String × List String := ([], [])
    let parts :=
      if status.untracked && status.added.isNone then
        (parts.1 ++ ["+?"], parts.2 ++ [palette.paint "+?" palette.GIT_ADDED])
      else parts
    let parts :=
      match status.added with
      | some a =>
        (parts.1 ++ ["+" ++ toString a],
         parts.2 ++ [palette.paint ("+" ++ toString a) palette.GIT_ADDED])
      | none => parts
    let parts :=
      match status.deleted with
      | some d =>
        (parts.1 ++ ["-" ++ toString d],
         parts.2 ++ [palette.paint ("-" ++ toString d) palette.GIT_REMOVED])
      | none => parts
    let parts :=
      if parts.1 = [] then
        (["dirty"], [palette.paint "dirty" palette.GIT_DIRTY])
      else parts
    some ("(" ++ joinSep " " parts.1 ++ ")", "(" ++ joinSep " " parts.2 ++ ")")

/-! ## Sorter (main.rs sort_rows, compare_modified_desc) -/

/-- Rust Ord::cmp on timestamps modelled as Nat. -/
def natCmpD (a b : Nat) : Ordering :=
  if a < b then .lt else if a = b then .eq else .gt

/-- Rust Ord::cmp on characters: by scalar value (UTF-8 byte order and
code-point order agree). -/
def charCmp (a b : Char) : Ordering :=
  natCmpD a.toNat b.toNat

/-- Lexicographic comparison of character lists. -/
def listCmp : List Char → List Char → Ordering
  | [], [] => .eq
  | [], _ :: _ => .lt
  | _ :: _, [] => .gt
  | a :: as, b :: bs => (charCmp a b).then (listCmp as bs)

/-- Rust Ord::cmp on strings (lexicographic total order). -/
def strCmp (a b : String) : Ordering :=
  listCmp a.data b.data

/-- compare_modified_desc from main.rs: newest first, real timestamps
before unknown. -/
def compare_modified_desc (a b : Option Nat) : Ordering :=
  match a, b with
  | some x, some y => natCmpD y x
  | some _, none => .lt
  | none, some _ => .gt
  | none, none => .eq

/-- The comparator closure of sort_rows before the reverse step. -/
def rowCmp (sort_modified : Bool) (a b : EntryRow) : Ordering :=
  if sort_modified then
    (compare_modified_desc a.modified_time b.modified_time).then
      (strCmp (lowerStr a.name_with_git_plain) (lowerStr b.name_with_git_plain))
  else
    match a.is_dir, b.is_dir with
    | true, false => .lt
    | false, true => .gt
    | _, _ => strCmp (lowerStr a.name_with_git_plain) (lowerStr b.name_with_git_plain)

/-- sort_rows from main.rs.  Rust slice::sort_by is a stable sort driven
by a total comparator; any stable sort is extensionally determined by the
comparator and the input order, so it is modelled by the stable insertion
sort, keeping an element before a later one exactly when the comparator
does not answer Greater. -/
def sort_rows (rows : List EntryRow) (sort_modified reverse : Bool) :
    List EntryRow :=
  List.insertionSort
    (fun a b =>
      (if reverse then (rowCmp sort_modified a b).swap
       else rowCmp sort_modified a b) ≠ Ordering.gt)
    rows

/-! ## Git status parsing and scoping (main.rs read_git_status,
merge_numstat, scope_git_entries, sum_opts) -/

/-- Association-list lookup, modelling HashMap::get. -/
def lookupAL : List (String × GitStatus) → String → Option GitStatus
  | [], _ => none
  | p :: rest, k => if p.1 = k then some p.2 else lookupAL rest k

/-- Association-list overwrite insert, modelling HashMap::insert. -/
def insertAL : List (String × GitStatus) → String → GitStatus →
    List (String × GitStatus)
  | [], k, v => [(k, v)]
  | p :: rest, k, v =>
    if p.1 = k then (k, v) :: rest else p :: insertAL rest k v

/-- One line of the porcelain status parse loop of read_git_status. -/
def parseStatusLine (map : List (String × GitStatus)) (line : String) :
    List (String × GitStatus) :=
  if strStartsWith line "!!" then map
  else if line.length < 3 then map
  else
    let code := strTake line 2
    let rawPath := trimStr (strDrop line 3)
    let path :=
      match afterLastArrow rawPath.data with
      | some r => String.mk r
      | none => rawPath
    let untracked := code = "??"
    let dirty := trimStr code ≠ ""
    insertAL map path ⟨none, none, dirty, untracked⟩

/-- read_git_status from main.rs, taking the subprocess result as input:
a spawn error or a non-success exit are both hard errors here. -/
def read_git_status (res : Option CmdOut) :
    Except String (List (String × GitStatus)) :=
  match res with
  | none => .error "failed to run git status"
  | some o =>
    if o.success then
      .ok ((linesOf o.stdout).foldl parseStatusLine [])
    else .error "git status failed"

/-- Option::or from Rust, used by the numstat merge. -/
def optOr (a b : Option Nat) : Option Nat :=
  match a with
  | some x => some x
  | none => b

/-- HashMap entry().and_modify().or_insert of merge_numstat. -/
def numstatUpdate : List (String × GitStatus) → String → Option Nat →
    Option Nat → List (String × GitStatus)
  | [], k, a, d => [(k, ⟨a, d, true, false⟩)]
  | p :: rest, k, a, d =>
    if p.1 = k then
      (p.1, ⟨optOr a p.2.added, optOr d p.2.deleted, true, p.2.untracked⟩) :: rest
    else p :: numstatUpdate rest k a d

/-- One line of the numstat parse loop of merge_numstat. -/
def parseNumstatLine (map : List (String × GitStatus)) (line : String) :
    List (String × GitStatus) :=
  let parts := splitOnChar '\t' line.data []
  if parts.length < 3 then map
  else
    let added := parseNat (parts.getD 0 "")
    let deleted := parseNat (parts.getD 1 "")
    let path := parts.getD 2 ""
    if added = none ∧ deleted = none then map
    else numstatUpdate map path added deleted

/-- merge_numstat from main.rs, taking the subprocess result as input:
a spawn error or a non-success exit are both hard errors here. -/
def merge_numstat (map : List (String × GitStatus)) (res : Option CmdOut) :
    Except String (List (String × GitStatus)) :=
  match res with
  | none => .error "failed to run git diff"
  | some o =>
    if o.success then
      .ok ((linesOf o.stdout).foldl parseNumstatLine map)
    else .error "git diff failed"

/-- sum_opts from main.rs. -/
def sum_opts (a b : Option Nat) : Option Nat :=
  match a, b with
  | some x, some y => some (x + y)
  | some x, none => some x
  | none, some y => some y
  | none, none => none

/-- The per-group accumulation of scope_git_entries: OR the flags and
sum the optional counts into the accumulated entry. -/
def gitCombine (e s : GitStatus) : GitStatus :=
  ⟨sum_opts e.added s.added, sum_opts e.deleted s.deleted,
   e.dirty || s.dirty, e.untracked || s.untracked⟩

/-- HashMap entry().or_insert(default) followed by the flag/count
accumulation of scope_git_entries. -/
def updateAL : List (String × GitStatus) → String → GitStatus →
    List (String × GitStatus)
  | [], k, s => [(k, gitCombine ⟨none, none, false, false⟩ s)]
  | p :: rest, k, s =>
    if p.1 = k then (p.1, gitCombine p.2 s) :: rest
    else p :: updateAL rest k s

/-- Path::components of a relative path string: split on the separator
and ignore empty segments.  Git status paths are always
repository-relative, where this coincides with Rust path components. -/
def pathComponents (p : String) : List String :=
  (splitOnChar '/' p.data []).filter (fun s => s ≠ "")

/-- The loop body of scope_git_entries for one raw record: re-root the
path below the listed directory (dropping records outside it) and fold
the record into the entry of its first remaining component. -/
def scopeStep (relBase : List String) (acc : List (String × GitStatus))
    (p : String × GitStatus) : List (String × GitStatus) :=
  let comps := pathComponents p.1
  if relBase.isPrefixOf comps then
    match comps.drop relBase.length with
    | [] => acc
    | key :: _ => updateAL acc key p.2
  else acc

/-- scope_git_entries from main.rs.  The relative base (the listed
directory relative to the repository root, as computed by strip_prefix
with its identity fallback) is passed as a component list. -/
def scope_git_entries (map : List (String × GitStatus))
    (relBase : List String) : List (String × GitStatus) :=
  map.foldl (scopeStep relBase) []

/-- load_git_info from main.rs, taking the three subprocess results as
inputs.  The canonicalized listed path is passed as a component list; the
repository root is the trimmed stdout of the rev-parse command, compared
component-wise as Path::starts_with does. -/
def load_git_info (revparse statusRes diffRes : Option CmdOut)
    (absList : List String) :
    Except String (Option (List (String × GitStatus))) :=
  match revparse with
  | none => .ok none
  | some o =>
    if o.success then
      let gitRoot := pathComponents (trimStr o.stdout)
      if gitRoot.isPrefixOf absList then
        let relBase :=
          if gitRoot.isPrefixOf absList then absList.drop gitRoot.length
          else absList
        match read_git_status statusRes with
        | .error e => .error e
        | .ok m =>
          match merge_numstat m diffRes with
          | .error e => .error e
          | .ok m2 => .ok (some (scope_git_entries m2 relBase))
      else .ok none
    else .ok none

/-! ## Entry collector (main.rs collect_entries) -/

/-- The data the filesystem yields for one directory child: name, type,
executable bit, size, and optional modification time. -/
structure RawEntry where
  name : String
  isDir : Bool
  isExec : Bool
  size : Nat
  mtime : Option Nat
deriving DecidableEq, Repr

/-- The status-suffix step of the collect_entries loop: append the
formatted suffix of a matching record, when present and nonempty, to the
plain and colored names. -/
def gitName (name name_colored : String) (git_paths : Option GitStatus) :
    String × String :=
  match git_paths with
  | some g =>
    let sfx := (format_git g).getD ("", "")
    if sfx.1 = "" then (name, name_colored)
    else (name ++ " " ++ sfx.1, name_colored ++ " " ++ sfx.2)
  | none => (name, name_colored)

/-- The per-child row construction of collect_entries (the loop body
after the hidden-file filter). -/
def makeRow (now : Nat) (git : Option (List (String × GitStatus)))
    (e : RawEntry) : EntryRow :=
  let name := e.name
  let is_hidden := strStartsWith name "."
  let entry_type := if e.isDir then EntryType.Dir else EntryType.File
  let mr :=
    match e.mtime with
    | some t => format_relative_time now t
    | none => ("unknown", Recency.Unknown)
  let name_colored := color_name name entry_type e.isExec is_hidden
  let type_plain := match entry_type with
    | .Dir => "dir"
    | .File => "file"
  let git_paths := git.bind (fun info => lookupAL info name)
  let nwg := gitName name name_colored git_paths
  { name_plain := name,
    name_with_git_plain := nwg.1,
    name_with_git_colored := nwg.2,
    entry_type_plain := type_plain,
    entry_type_colored := palette.paint type_plain palette.TYPE,
    size_plain := format_size e.size,
    size_colored := palette.paint (format_size e.size) palette.SIZE,
    modified_colored := color_modified mr.1 mr.2,
    modified_plain := mr.1,
    modified_time := e.mtime,
    is_dir := entry_type = EntryType.Dir }

/-- collect_entries from main.rs, with the filesystem read modelled as an
input list of raw entries (metadata errors excluded: they abort before
any row is built). -/
def collect_entries (now : Nat) (entries : List RawEntry)
    (include_hidden sort_modified reverse : Bool)
    (git : Option (List (String × GitStatus))) : List EntryRow :=
  sort_rows
    ((entries.filter
        (fun e => include_hidden || !(strStartsWith e.name "."))).map
      (makeRow now git))
    sort_modified reverse

/-! ## Table renderer widths and padding (main.rs render_table, pad_cell) -/

/-- A run of spaces, modelling str::repeat of a single space. -/
def spaces (n : Nat) : String :=
  String.mk (List.replicate n ' ')

/-- pad_cell from main.rs: the pad amount is computed from the plain
text, the printed text is the colored variant. -/
def pad_cell (colored plain : String) (width : Nat) (align : Align) :
    String :=
  let pad := width - plain.length
  match align with
  | .Left => colored ++ spaces pad
  | .Right => spaces pad ++ colored

/-- The five column widths computed at the top of render_table. -/
def columnWidths (rows : List EntryRow) : List Nat :=
  let index_width := (toString (rows.length - 1)).length.max 1
  let name_width :=
    (((rows.map fun r : EntryRow => r.name_with_git_plain.length).max?).getD 4).max
      "name".length
  let type_width :=
    (((rows.map fun r : EntryRow => r.entry_type_plain.length).max?).getD 4).max
      "type".length
  let size_width :=
    (((rows.map fun r : EntryRow => r.size_plain.length).max?).getD 4).max
      "size".length
  let modified_width :=
    (((rows.map fun r : EntryRow => r.modified_plain.length).max?).getD 8).max
      "modified".length
  [index_width, name_width, type_width, size_width, modified_width]

/-! ## Order-theoretic view of the comparators -/

/-- The comparator induced by a linear order, the semantics of Rust
Ord::cmp. -/
def cmpOf {α : Type} [LinearOrder α] (a b : α) : Ordering :=
  if a < b then .lt else if a = b then .eq else .gt

/-- Directory-before-file priority of the default sort as a numeric
rank. -/
def prioOf (a : EntryRow) : ℕ :=
  if a.is_dir then 0 else 1

/-- A string as the list of its character codes, an order-embedding of
the lexicographic string order into the lexicographic order on lists of
naturals. -/
def strKey (s : String) : List ℕ :=
  s.data.map Char.toNat

/-- The sort key realized by the default-mode comparator. -/
def keyDefault (a : EntryRow) : Lex (ℕ × List ℕ) :=
  toLex (prioOf a, strKey (lowerStr a.name_with_git_plain))

/-- Timestamp rank of the modified-mode comparator: known timestamps in
descending order, unknown at the end. -/
def tkey : Option Nat → WithTop (OrderDual ℕ)
  | some t => ((OrderDual.toDual t : OrderDual ℕ) : WithTop (OrderDual ℕ))
  | none => ⊤

/-- The sort key realized by the modified-mode comparator. -/
def keyModified (a : EntryRow) : Lex (WithTop (OrderDual ℕ) × List ℕ) :=
  toLex (tkey a.modified_time, strKey (lowerStr a.name_with_git_plain))

/-- A row with the given display name, kind, and timestamp, other fields
irrelevant to sorting left empty (mirrors the rows built in the source
tests). -/
def rowOf (name : String) (isDir : Bool) (t : Option Nat) : EntryRow :=
  { name_plain := name,
    name_with_git_plain := name,
    name_with_git_colored := name,
    entry_type_plain := "",
    entry_type_colored := "",
    size_plain := "",
    size_colored := "",
    modified_plain := "",
    modified_colored := "",
    modified_time := t,
    is_dir := isDir }

/-- Number of decimal digits of a natural number. -/
def digitCount (n : Nat) : Nat :=
  if n < 10 then 1 else digitCount (n / 10) + 1
decreasing_by
  simp_wf
  omega

/-- Modelled from the spec wording for the size formatter: the largest
unit of the table whose scale does not exceed the byte count, defaulting
to bytes. -/
def specUnit (size : Nat) : String × Nat :=
  match (sizeUnits.filter fun u : String × Nat => u.2 ≤ size).getLast? with
  | some u => u
  | none => ("B", 1)

/-- Modelled from the spec wording for the status formatter: the ordered
plain token list of a non-clean record. -/
def specGitTokens (st : GitStatus) : List String :=
  let ts :=
    (if st.untracked ∧ st.added = none then ["+?"] else []) ++
    (match st.added with
     | some a => ["+" ++ toString a]
     | none => []) ++
    (match st.deleted with
     | some d => ["-" ++ toString d]
     | none => [])
  if ts = [] then ["dirty"] else ts

/-- Modelled from the spec wording for the status formatter: the ordered
colored token list of a non-clean record. -/
def specGitTokensColored (st : GitStatus) : List String :=
  let ts :=
    (if st.untracked ∧ st.added = none then
      [palette.paint "+?" palette.GIT_ADDED]
     else []) ++
    (match st.added with
     | some a => [palette.paint ("+" ++ toString a) palette.GIT_ADDED]
     | none => []) ++
    (match st.deleted with
     | some d => [palette.paint ("-" ++ toString d) palette.GIT_REMOVED]
     | none => [])
  if ts = [] then [palette.paint "dirty" palette.GIT_DIRTY] else ts

/-- Folding a status into an optional accumulated status, the shape the
scoped map takes at one key while scope_git_entries runs. -/
def gitCombineO (e : Option GitStatus) (s : GitStatus) : Option GitStatus :=
  match e with
  | none => some s
  | some g => some (gitCombine g s)

/-- The statuses of an input map that scope_git_entries aggregates under
a given child key. -/
def relevantOf (relBase : List String) (k : String)
    (m : List (String × GitStatus)) : List GitStatus :=
  m.filterMap fun p =>
    if relBase.isPrefixOf (pathComponents p.1) ∧
        ((pathComponents p.1).drop relBase.length).head? = some k
    then some p.2 else none

theorem natCmpD_eq_cmpOf (a b : Nat) : natCmpD a b = cmpOf a b := rfl

theorem cmpOf_lt {α : Type} [LinearOrder α] {a b : α} (h : a < b) :
    cmpOf a b = Ordering.lt := by
  unfold cmpOf
  exact if_pos h

theorem cmpOf_eq_self {α : Type} [LinearOrder α] (a : α) :
    cmpOf a a = Ordering.eq := by
  unfold cmpOf
  exact (if_neg (lt_irrefl a)).trans (if_pos rfl)

theorem cmpOf_gt {α : Type} [LinearOrder α] {a b : α} (h : b < a) :
    cmpOf a b = Ordering.gt := by
  unfold cmpOf
  exact (if_neg (lt_asymm h)).trans (if_neg (ne_of_gt h))

theorem cmpOf_cons_same {α : Type} [LinearOrder α] (x : α) (l₁ l₂ : List α) :
    cmpOf (x :: l₁) (x :: l₂) = cmpOf l₁ l₂ := by
  rcases lt_trichotomy l₁ l₂ with h | rfl | h
  · rw [cmpOf_lt h, cmpOf_lt (show x :: l₁ < x :: l₂ from List.Lex.cons h)]
  · rw [cmpOf_eq_self]
    exact (cmpOf_eq_self _).symm
  · rw [cmpOf_gt h, cmpOf_gt (show x :: l₂ < x :: l₁ from List.Lex.cons h)]

theorem listCmp_eq_cmpOf (as bs : List Char) :
    listCmp as bs = cmpOf (as.map Char.toNat) (bs.map Char.toNat) := by
  induction as generalizing bs with
  | nil =>
    cases bs with
    | nil => exact (cmpOf_eq_self _).symm
    | cons b bs =>
      rw [List.map_nil, List.map_cons,
        cmpOf_lt (show ([] : List ℕ) < b.toNat :: bs.map Char.toNat from
          List.nil_lt_cons _ _)]
      rfl
  | cons a as ih =>
    cases bs with
    | nil =>
      rw [List.map_nil, List.map_cons,
        cmpOf_gt (show ([] : List ℕ) < a.toNat :: as.map Char.toNat from
          List.nil_lt_cons _ _)]
      rfl
    | cons b bs =>
      rw [List.map_cons, List.map_cons]
      rcases lt_trichotomy a.toNat b.toNat with h | h | h
      · have hc : charCmp a b = Ordering.lt := by
          unfold charCmp natCmpD
          exact if_pos h
        rw [cmpOf_lt (show a.toNat :: as.map Char.toNat
              < b.toNat :: bs.map Char.toNat from List.Lex.rel h)]
        show (charCmp a b).then (listCmp as bs) = Ordering.lt
        rw [hc]
        rfl
      · have hc : charCmp a b = Ordering.eq := by
          unfold charCmp natCmpD
          exact (if_neg (by omega)).trans (if_pos h)
        rw [h, cmpOf_cons_same]
        show (charCmp a b).then (listCmp as bs) = _
        rw [hc]
        exact ih bs
      · have hc : charCmp a b = Ordering.gt := by
          unfold charCmp natCmpD
          exact (if_neg (by omega)).trans (if_neg (by omega))
        rw [cmpOf_gt (show b.toNat :: bs.map Char.toNat
              < a.toNat :: as.map Char.toNat from List.Lex.rel h)]
        show (charCmp a b).then (listCmp as bs) = Ordering.gt
        rw [hc]
        rfl

theorem strCmp_eq_cmpOf (a b : String) :
    strCmp a b = cmpOf (strKey a) (strKey b) :=
  listCmp_eq_cmpOf a.data b.data

theorem cmpOf_swap {α : Type} [LinearOrder α] (a b : α) :
    (cmpOf a b).swap = cmpOf b a := by
  rcases lt_trichotomy a b with h | rfl | h
  · rw [cmpOf_lt h, cmpOf_gt h]; rfl
  · rw [cmpOf_eq_self]; rfl
  · rw [cmpOf_gt h, cmpOf_lt h]; rfl

theorem cmpOf_eq_iff {α : Type} [LinearOrder α] (a b : α) :
    cmpOf a b = Ordering.eq ↔ a = b := by
  rcases lt_trichotomy a b with h | rfl | h
  · rw [cmpOf_lt h]; exact iff_of_false (by decide) (ne_of_lt h)
  · rw [cmpOf_eq_self]; exact iff_of_true rfl rfl
  · rw [cmpOf_gt h]; exact iff_of_false (by decide) (ne_of_gt h)

theorem cmpOf_ne_gt {α : Type} [LinearOrder α] (a b : α) :
    cmpOf a b ≠ Ordering.gt ↔ a ≤ b := by
  rcases lt_trichotomy a b with h | rfl | h
  · rw [cmpOf_lt h]; exact iff_of_true (by decide) (le_of_lt h)
  · rw [cmpOf_eq_self]; exact iff_of_true (by decide) le_rfl
  · rw [cmpOf_gt h]; exact iff_of_false (fun hc => hc rfl) (not_le_of_gt h)

theorem cmpOf_then_lex {α β : Type} [LinearOrder α] [LinearOrder β]
    (a₁ a₂ : α) (b₁ b₂ : β) :
    (cmpOf a₁ a₂).then (cmpOf b₁ b₂) =
      cmpOf (toLex (a₁, b₁)) (toLex (a₂, b₂)) := by
  rcases lt_trichotomy a₁ a₂ with h | rfl | h
  · have hlt : toLex (a₁, b₁) < toLex (a₂, b₂) :=
      (Prod.Lex.lt_iff _ _).mpr (Or.inl h)
    rw [cmpOf_lt h, cmpOf_lt hlt]
    rfl
  · rw [cmpOf_eq_self]
    rcases lt_trichotomy b₁ b₂ with hb | rfl | hb
    · have hlt : toLex (a₁, b₁) < toLex (a₁, b₂) :=
        (Prod.Lex.lt_iff _ _).mpr (Or.inr ⟨rfl, hb⟩)
      rw [cmpOf_lt hb, cmpOf_lt hlt]
      rfl
    · rw [cmpOf_eq_self, cmpOf_eq_self]
      rfl
    · have hgt : toLex (a₁, b₂) < toLex (a₁, b₁) :=
        (Prod.Lex.lt_iff _ _).mpr (Or.inr ⟨rfl, hb⟩)
      rw [cmpOf_gt hb, cmpOf_gt hgt]
      rfl
  · have hgt : toLex (a₂, b₂) < toLex (a₁, b₁) :=
      (Prod.Lex.lt_iff _ _).mpr (Or.inl h)
    rw [cmpOf_gt h, cmpOf_gt hgt]
    rfl

theorem compare_modified_desc_eq_cmpOf (a b : Option Nat) :
    compare_modified_desc a b = cmpOf (tkey a) (tkey b) := by
  rcases a with _ | x <;> rcases b with _ | y
  · exact (cmpOf_eq_self (tkey none)).symm
  · exact (cmpOf_gt (show tkey (some y) < tkey none from
      WithTop.coe_lt_top _)).symm
  · exact (cmpOf_lt (show tkey (some x) < tkey none from
      WithTop.coe_lt_top _)).symm
  · show natCmpD y x = _
    rcases lt_trichotomy y x with h | rfl | h
    · rw [cmpOf_lt (show tkey (some x) < tkey (some y) from
        WithTop.coe_lt_coe.mpr (OrderDual.toDual_lt_toDual.mpr h))]
      unfold natCmpD
      exact if_pos h
    · rw [cmpOf_eq_self]
      unfold natCmpD
      exact (if_neg (lt_irrefl y)).trans (if_pos rfl)
    · rw [cmpOf_gt (show tkey (some y) < tkey (some x) from
        WithTop.coe_lt_coe.mpr (OrderDual.toDual_lt_toDual.mpr h))]
      unfold natCmpD
      exact (if_neg (lt_asymm h)).trans (if_neg (ne_of_gt h))

theorem rowCmp_false_eq_cmpOf (a b : EntryRow) :
    rowCmp false a b = cmpOf (keyDefault a) (keyDefault b) := by
  have hkey : cmpOf (keyDefault a) (keyDefault b)
      = (cmpOf (prioOf a) (prioOf b)).then
        (strCmp (lowerStr a.name_with_git_plain)
          (lowerStr b.name_with_git_plain)) := by
    rw [strCmp_eq_cmpOf]
    exact (cmpOf_then_lex _ _ _ _).symm
  rw [hkey]
  cases ha : a.is_dir <;> cases hb : b.is_dir
  · have hpa : prioOf a = 1 := by unfold prioOf; rw [ha]; rfl
    have hpb : prioOf b = 1 := by unfold prioOf; rw [hb]; rfl
    rw [hpa, hpb, cmpOf_eq_self]
    unfold rowCmp
    rw [ha, hb]
    rfl
  · have hpa : prioOf a = 1 := by unfold prioOf; rw [ha]; rfl
    have hpb : prioOf b = 0 := by unfold prioOf; rw [hb]; rfl
    rw [hpa, hpb, cmpOf_gt (show (0 : ℕ) < 1 from Nat.zero_lt_one)]
    unfold rowCmp
    rw [ha, hb]
    rfl
  · have hpa : prioOf a = 0 := by unfold prioOf; rw [ha]; rfl
    have hpb : prioOf b = 1 := by unfold prioOf; rw [hb]; rfl
    rw [hpa, hpb, cmpOf_lt (show (0 : ℕ) < 1 from Nat.zero_lt_one)]
    unfold rowCmp
    rw [ha, hb]
    rfl
  · have hpa : prioOf a = 0 := by unfold prioOf; rw [ha]; rfl
    have hpb : prioOf b = 0 := by unfold prioOf; rw [hb]; rfl
    rw [hpa, hpb, cmpOf_eq_self]
    unfold rowCmp
    rw [ha, hb]
    rfl

theorem rowCmp_true_eq_cmpOf (a b : EntryRow) :
    rowCmp true a b = cmpOf (keyModified a) (keyModified b) := by
  show (compare_modified_desc a.modified_time b.modified_time).then
      (strCmp (lowerStr a.name_with_git_plain)
        (lowerStr b.name_with_git_plain)) = _
  rw [compare_modified_desc_eq_cmpOf, strCmp_eq_cmpOf, cmpOf_then_lex]
  rfl

/-- A stable sort under the per-comparison swapped comparator is the
exact reversal of the sort under the original comparator, provided the
comparator separates the elements of the list (no two compare equal). -/
theorem insertionSort_swap_eq_reverse {α β : Type} [LinearOrder β]
    (cmp : α → α → Ordering) (key : α → β)
    (hk : ∀ a b, cmp a b = cmpOf (key a) (key b))
    (rows : List α)
    (hdist : rows.Pairwise fun a b => cmp a b ≠ Ordering.eq) :
    List.insertionSort (fun a b => (cmp a b).swap ≠ Ordering.gt) rows
      = (List.insertionSort (fun a b => cmp a b ≠ Ordering.gt) rows).reverse := by
  let r : α → α → Prop := fun a b => cmp a b ≠ Ordering.gt
  let r' : α → α → Prop := fun a b => (cmp a b).swap ≠ Ordering.gt
  have hrle : ∀ a b, r a b ↔ key a ≤ key b := by
    intro a b
    show cmp a b ≠ Ordering.gt ↔ _
    rw [hk]
    exact cmpOf_ne_gt _ _
  have hr'le : ∀ a b, r' a b ↔ key b ≤ key a := by
    intro a b
    show (cmp a b).swap ≠ Ordering.gt ↔ _
    rw [hk, cmpOf_swap]
    exact cmpOf_ne_gt _ _
  haveI hTot : IsTotal α r := ⟨fun a b => by
    rcases le_total (key a) (key b) with h | h
    · exact Or.inl ((hrle a b).mpr h)
    · exact Or.inr ((hrle b a).mpr h)⟩
  haveI hTrans : IsTrans α r := ⟨fun a b c hab hbc =>
    (hrle a c).mpr (le_trans ((hrle a b).mp hab) ((hrle b c).mp hbc))⟩
  haveI hTot' : IsTotal α r' := ⟨fun a b => by
    rcases le_total (key b) (key a) with h | h
    · exact Or.inl ((hr'le a b).mpr h)
    · exact Or.inr ((hr'le b a).mpr h)⟩
  haveI hTrans' : IsTrans α r' := ⟨fun a b c hab hbc =>
    (hr'le a c).mpr (le_trans ((hr'le b c).mp hbc) ((hr'le a b).mp hab))⟩
  have hpermL : List.Perm (List.insertionSort r rows) rows :=
    List.perm_insertionSort r rows
  have hpermL' : List.Perm (List.insertionSort r' rows) rows :=
    List.perm_insertionSort r' rows
  have hsortL : (List.insertionSort r rows).Pairwise r :=
    List.sorted_insertionSort r rows
  have hsortL' : (List.insertionSort r' rows).Pairwise r' :=
    List.sorted_insertionSort r' rows
  have hdistK : rows.Pairwise fun a b => key a ≠ key b :=
    hdist.imp fun {a b} h => fun he => h (by
      rw [hk]
      exact (cmpOf_eq_iff _ _).mpr he)
  have hdistL : (List.insertionSort r rows).Pairwise fun a b => key a ≠ key b :=
    (List.Perm.pairwise_iff (fun {x y} h => Ne.symm h) hpermL).mpr hdistK
  have hdistL' :
      (List.insertionSort r' rows).Pairwise fun a b => key a ≠ key b :=
    (List.Perm.pairwise_iff (fun {x y} h => Ne.symm h) hpermL').mpr hdistK
  have hstrL : (List.insertionSort r rows).Pairwise fun a b => key a < key b :=
    (hsortL.and hdistL).imp fun {a b} h =>
      lt_of_le_of_ne ((hrle a b).mp h.1) h.2
  have hstrL' :
      ((List.insertionSort r' rows).reverse).Pairwise
        fun a b => key a < key b := by
    rw [List.pairwise_reverse]
    exact (hsortL'.and hdistL').imp fun {a b} h =>
      lt_of_le_of_ne ((hr'le a b).mp h.1) (Ne.symm h.2)
  haveI : IsAntisymm α (fun a b => key a < key b) :=
    ⟨fun a b h1 h2 => absurd h2 (lt_asymm h1)⟩
  have hperm2 : List.Perm (List.insertionSort r' rows).reverse
      (List.insertionSort r rows) :=
    ((List.reverse_perm _).trans hpermL').trans hpermL.symm
  have heq : (List.insertionSort r' rows).reverse = List.insertionSort r rows :=
    List.eq_of_perm_of_sorted hperm2 hstrL' hstrL
  calc List.insertionSort r' rows
      = ((List.insertionSort r' rows).reverse).reverse :=
        (List.reverse_reverse _).symm
    _ = (List.insertionSort r rows).reverse := by rw [heq]

theorem tkey_eq_top {x : Option Nat} : tkey x = ⊤ ↔ x = none := by
  rcases x with _ | t
  · exact iff_of_true rfl rfl
  · exact iff_of_false (fun h => WithTop.coe_ne_top h) (by simp)

/-- C2 counterexample: the rows named A and a are distinct but compare
equal (same kind, same lowercased name), so the stable sort leaves them
in input order under both the plain and the per-comparison reversed
comparator, and the reversed sort is not the reversal of the plain
sort. -/
theorem sort_rows_reverse_counterexample :
    sort_rows [rowOf "A" false none, rowOf "a" false none] false true
      ≠ (sort_rows [rowOf "A" false none,
          rowOf "a" false none] false false).reverse := by
  decide

/-- C2 (amended): when the comparator of the selected mode separates the
rows (no two rows compare equal), sorting with the reverse flag produces
exactly the reversal of the order produced without it, whole-order
precedence included; rows that compare equal instead keep their input
order under both flags, because the flag flips the comparator of a
stable sort rather than reversing its output. -/
theorem sort_rows_reverse_eq_reverse (rows : List EntryRow) (m : Bool)
    (h : rows.Pairwise fun a b => rowCmp m a b ≠ Ordering.eq) :
    sort_rows rows m true = (sort_rows rows m false).reverse := by
  cases m
  · exact insertionSort_swap_eq_reverse (rowCmp false) keyDefault
      rowCmp_false_eq_cmpOf rows h
  · exact insertionSort_swap_eq_reverse (rowCmp true) keyModified
      rowCmp_true_eq_cmpOf rows h

/-- C2 witness: a concrete three-row listing with pairwise distinct keys
on which the reversed sort is the exact reversal. -/
theorem sort_rows_reverse_eq_reverse_witness :
    ([rowOf "b" false none, rowOf "A" true none,
        rowOf "c" false none].Pairwise
      fun a b => rowCmp false a b ≠ Ordering.eq)
    ∧ sort_rows [rowOf "b" false none, rowOf "A" true none,
        rowOf "c" false none] false true
      = (sort_rows [rowOf "b" false none, rowOf "A" true none,
          rowOf "c" false none] false false).reverse :=
  ⟨by decide, sort_rows_reverse_eq_reverse _ _ (by decide)⟩

/-- C6: in the sort-by-modified-time mode (reverse off) every entry with
a known timestamp sorts strictly before every entry with an unknown one
regardless of kind, among known timestamps newer sorts first, ties
(including unknown versus unknown) are broken by case-insensitive
lexicographic name order, and the comparator of this mode ignores the
directory-versus-file kind entirely. -/
theorem sort_modified_mode_properties :
    ∀ rows : List EntryRow,
      ((sort_rows rows true false).Pairwise fun a b =>
        (a.modified_time = none → b.modified_time = none) ∧
        (∀ ta tb, a.modified_time = some ta → b.modified_time = some tb →
          tb ≤ ta) ∧
        (a.modified_time = b.modified_time →
          strKey (lowerStr a.name_with_git_plain)
            ≤ strKey (lowerStr b.name_with_git_plain)))
      ∧ ∀ a b : EntryRow, ∀ d₁ d₂ : Bool,
          rowCmp true { a with is_dir := d₁ } { b with is_dir := d₂ } =
            rowCmp true a b := by
  intro rows
  constructor
  · have hrel : ∀ a b : EntryRow, (rowCmp true a b ≠ Ordering.gt) →
        keyModified a ≤ keyModified b := by
      intro a b h
      rw [rowCmp_true_eq_cmpOf] at h
      exact (cmpOf_ne_gt _ _).mp h
    haveI : IsTotal EntryRow (fun a b => rowCmp true a b ≠ Ordering.gt) :=
      ⟨fun a b => by
        rcases le_total (keyModified a) (keyModified b) with h | h
        · refine Or.inl ?_
          show rowCmp true a b ≠ Ordering.gt
          rw [rowCmp_true_eq_cmpOf]
          exact (cmpOf_ne_gt _ _).mpr h
        · refine Or.inr ?_
          show rowCmp true b a ≠ Ordering.gt
          rw [rowCmp_true_eq_cmpOf]
          exact (cmpOf_ne_gt _ _).mpr h⟩
    haveI : IsTrans EntryRow (fun a b => rowCmp true a b ≠ Ordering.gt) :=
      ⟨fun a b c hab hbc => by
        show rowCmp true a c ≠ Ordering.gt
        rw [rowCmp_true_eq_cmpOf]
        exact (cmpOf_ne_gt _ _).mpr
          (le_trans (hrel a b hab) (hrel b c hbc))⟩
    have hsorted :=
      List.sorted_insertionSort (fun a b => rowCmp true a b ≠ Ordering.gt)
        rows
    have himp : ∀ {a b : EntryRow}, (rowCmp true a b ≠ Ordering.gt) →
        ((a.modified_time = none → b.modified_time = none) ∧
         (∀ ta tb, a.modified_time = some ta → b.modified_time = some tb →
           tb ≤ ta) ∧
         (a.modified_time = b.modified_time →
           strKey (lowerStr a.name_with_git_plain)
             ≤ strKey (lowerStr b.name_with_git_plain))) := by
      intro a b h
      have hk' : toLex (tkey a.modified_time,
            strKey (lowerStr a.name_with_git_plain))
          ≤ toLex (tkey b.modified_time,
            strKey (lowerStr b.name_with_git_plain)) := hrel a b h
      have hk := (Prod.Lex.le_iff _ _).mp hk'
      refine ⟨?_, ?_, ?_⟩
      · intro hna
        rcases hk with hlt | ⟨heq, -⟩
        · rw [hna] at hlt
          exact absurd hlt not_top_lt
        · rw [hna] at heq
          exact tkey_eq_top.mp heq.symm
      · intro ta tb hta htb
        rcases hk with hlt | ⟨heq, -⟩
        · rw [hta, htb] at hlt
          have h2 := OrderDual.toDual_lt_toDual.mp (WithTop.coe_lt_coe.mp hlt)
          exact le_of_lt h2
        · rw [hta, htb] at heq
          have h2 : ta = tb := OrderDual.toDual_inj.mp (WithTop.coe_eq_coe.mp heq)
          omega
      · intro heq
        rcases hk with hlt | ⟨-, hle⟩
        · rw [heq] at hlt
          exact absurd hlt (lt_irrefl _)
        · exact hle
    exact hsorted.imp himp
  · intro a b d₁ d₂
    rfl

theorem splitOnChar_no_sep (sep : Char) :
    ∀ (cs acc : List Char), (∀ c ∈ acc, c ≠ sep) →
      ∀ s ∈ splitOnChar sep cs acc, ∀ c ∈ s.data, c ≠ sep := by
  intro cs
  induction cs with
  | nil =>
    intro acc hacc s hs c hc
    rcases List.mem_singleton.mp hs with rfl
    exact hacc c (List.mem_reverse.mp hc)
  | cons c0 cs ih =>
    intro acc hacc s hs c hc
    by_cases h0 : c0 = sep
    · rw [splitOnChar, if_pos h0] at hs
      rcases List.mem_cons.mp hs with rfl | hs2
      · exact hacc c (List.mem_reverse.mp hc)
      · exact ih [] (by intro x hx; cases hx) s hs2 c hc
    · rw [splitOnChar, if_neg h0] at hs
      refine ih (c0 :: acc) ?_ s hs c hc
      intro x hx
      rcases List.mem_cons.mp hx with rfl | hx2
      · exact h0
      · exact hacc x hx2

theorem splitOnChar_no_sep_eq (sep : Char) :
    ∀ (cs acc : List Char), (∀ c ∈ cs, c ≠ sep) →
      splitOnChar sep cs acc = [String.mk (acc.reverse ++ cs)] := by
  intro cs
  induction cs with
  | nil =>
    intro acc _
    rw [splitOnChar, List.append_nil]
  | cons c0 cs ih =>
    intro acc hcs
    rw [splitOnChar, if_neg (hcs c0 (List.mem_cons_self c0 cs)),
      ih (c0 :: acc) (fun x hx => hcs x (List.mem_cons_of_mem c0 hx)),
      List.reverse_cons, List.append_assoc]
    rfl

theorem pathComponents_single (k : String)
    (hns : ∀ c ∈ k.data, c ≠ '/') (hne : k ≠ "") :
    pathComponents k = [k] := by
  unfold pathComponents
  rw [splitOnChar_no_sep_eq '/' k.data [] hns]
  show List.filter _ [k] = [k]
  rw [List.filter_cons, if_pos (by exact decide_eq_true hne)]
  rfl

theorem mem_pathComponents {p k : String} (h : k ∈ pathComponents p) :
    (∀ c ∈ k.data, c ≠ '/') ∧ k ≠ "" := by
  unfold pathComponents at h
  have h2 := List.mem_filter.mp h
  refine ⟨splitOnChar_no_sep '/' p.data [] (by intro x hx; cases hx) k h2.1, ?_⟩
  exact of_decide_eq_true h2.2

theorem mem_keys_updateAL :
    ∀ (m : List (String × GitStatus)) (k : String) (s : GitStatus)
      (k' : String), k' ∈ (updateAL m k s).map Prod.fst →
      k' = k ∨ k' ∈ m.map Prod.fst := by
  intro m
  induction m with
  | nil =>
    intro k s k' h
    rcases List.mem_singleton.mp h with rfl
    exact Or.inl rfl
  | cons p rest ih =>
    intro k s k' h
    by_cases hp : p.1 = k
    · rw [updateAL, if_pos hp] at h
      rcases List.mem_cons.mp h with rfl | h2
      · exact Or.inl hp
      · exact Or.inr (List.mem_cons_of_mem _ h2)
    · rw [updateAL, if_neg hp] at h
      rcases List.mem_cons.mp h with rfl | h2
      · exact Or.inr (List.mem_cons_self _ _)
      · rcases ih k s k' h2 with h3 | h3
        · exact Or.inl h3
        · exact Or.inr (List.mem_cons_of_mem _ h3)

theorem scope_keys_aux (relBase : List String) :
    ∀ (m acc : List (String × GitStatus)),
      (∀ k ∈ acc.map Prod.fst, pathComponents k = [k]) →
      ∀ k ∈ (m.foldl (scopeStep relBase) acc).map Prod.fst,
        pathComponents k = [k] := by
  intro m
  induction m with
  | nil => intro acc hacc; exact hacc
  | cons p rest ih =>
    intro acc hacc
    rw [List.foldl_cons]
    refine ih (scopeStep relBase acc p) ?_
    intro k hk
    unfold scopeStep at hk
    by_cases hpre : relBase.isPrefixOf (pathComponents p.1)
    · rw [if_pos hpre] at hk
      rcases hdrop : (pathComponents p.1).drop relBase.length with _ | ⟨key, t⟩
      · rw [hdrop] at hk
        exact hacc k hk
      · rw [hdrop] at hk
        rcases mem_keys_updateAL acc key p.2 k hk with rfl | h2
        · have hmem : k ∈ pathComponents p.1 := by
            have : k ∈ (pathComponents p.1).drop relBase.length := by
              rw [hdrop]
              exact List.mem_cons_self _ _
            exact List.mem_of_mem_drop this
          have hp2 := mem_pathComponents hmem
          exact pathComponents_single k hp2.1 hp2.2
        · exact hacc k h2
    · rw [if_neg hpre] at hk
      exact hacc k hk

theorem gitCombine_default (s : GitStatus) :
    gitCombine ⟨none, none, false, false⟩ s = s := by
  rcases s with ⟨ad, de, di, un⟩
  rcases ad <;> rcases de <;> rfl

theorem sum_opts_right_comm (x a b : Option Nat) :
    sum_opts (sum_opts x a) b = sum_opts (sum_opts x b) a := by
  rcases x with _ | x <;> rcases a with _ | a <;> rcases b with _ | b <;>
    simp [sum_opts] <;> omega

theorem sum_opts_comm (a b : Option Nat) :
    sum_opts a b = sum_opts b a := by
  rcases a with _ | a <;> rcases b with _ | b <;> simp [sum_opts] <;> omega

theorem gitCombine_left_comm (e a b : GitStatus) :
    gitCombine (gitCombine e a) b = gitCombine (gitCombine e b) a := by
  rcases e with ⟨ea, ed, edi, eun⟩
  rcases a with ⟨aa, ad2, adi, aun⟩
  rcases b with ⟨ba, bd, bdi, bun⟩
  simp only [gitCombine, GitStatus.mk.injEq]
  refine ⟨sum_opts_right_comm _ _ _, sum_opts_right_comm _ _ _, ?_, ?_⟩
  · rcases edi <;> rcases adi <;> rcases bdi <;> rfl
  · rcases eun <;> rcases aun <;> rcases bun <;> rfl

theorem gitCombine_comm (a b : GitStatus) :
    gitCombine a b = gitCombine b a := by
  rcases a with ⟨aa, ad2, adi, aun⟩
  rcases b with ⟨ba, bd, bdi, bun⟩
  simp only [gitCombine, GitStatus.mk.injEq]
  refine ⟨sum_opts_comm _ _, sum_opts_comm _ _, ?_, ?_⟩
  · rcases adi <;> rcases bdi <;> rfl
  · rcases aun <;> rcases bun <;> rfl

theorem gitCombineO_left_comm (e : Option GitStatus) (a b : GitStatus) :
    gitCombineO (gitCombineO e a) b = gitCombineO (gitCombineO e b) a := by
  rcases e with _ | g
  · show some (gitCombine a b) = some (gitCombine b a)
    rw [gitCombine_comm]
  · show some (gitCombine (gitCombine g a) b) = some (gitCombine (gitCombine g b) a)
    rw [gitCombine_left_comm]

theorem foldl_gitCombineO_perm {l₁ l₂ : List GitStatus}
    (h : List.Perm l₁ l₂) :
    ∀ e : Option GitStatus, l₁.foldl gitCombineO e = l₂.foldl gitCombineO e := by
  induction h with
  | nil => intro e; rfl
  | cons x p ih =>
    intro e
    rw [List.foldl_cons, List.foldl_cons]
    exact ih _
  | swap x y l =>
    intro e
    rw [List.foldl_cons, List.foldl_cons, List.foldl_cons, List.foldl_cons,
      gitCombineO_left_comm]
  | trans p q ih₁ ih₂ =>
    intro e
    exact (ih₁ e).trans (ih₂ e)

theorem lookupAL_updateAL_same :
    ∀ (m : List (String × GitStatus)) (k : String) (s : GitStatus),
      lookupAL (updateAL m k s) k = gitCombineO (lookupAL m k) s := by
  intro m
  induction m with
  | nil =>
    intro k s
    show (if k = k then some (gitCombine ⟨none, none, false, false⟩ s)
        else none) = some s
    rw [if_pos rfl, gitCombine_default]
  | cons p rest ih =>
    intro k s
    by_cases hp : p.1 = k
    · rw [updateAL, if_pos hp]
      show (if p.1 = k then some (gitCombine p.2 s) else lookupAL rest k)
          = gitCombineO (if p.1 = k then some p.2 else lookupAL rest k) s
      rw [if_pos hp, if_pos hp]
      rfl
    · rw [updateAL, if_neg hp]
      show (if p.1 = k then some p.2 else lookupAL (updateAL rest k s) k)
          = gitCombineO (if p.1 = k then some p.2 else lookupAL rest k) s
      rw [if_neg hp, if_neg hp]
      exact ih k s

theorem lookupAL_updateAL_ne :
    ∀ (m : List (String × GitStatus)) {k2 k : String}, k2 ≠ k →
      ∀ s : GitStatus, lookupAL (updateAL m k2 s) k = lookupAL m k := by
  intro m
  induction m with
  | nil =>
    intro k2 k h s
    show (if k2 = k then some (gitCombine ⟨none, none, false, false⟩ s)
        else none) = none
    rw [if_neg h]
  | cons p rest ih =>
    intro k2 k h s
    by_cases hp : p.1 = k2
    · rw [updateAL, if_pos hp]
      have hpk : p.1 ≠ k := fun hc => h (hp ▸ hc)
      show (if p.1 = k then some (gitCombine p.2 s) else lookupAL rest k)
          = (if p.1 = k then some p.2 else lookupAL rest k)
      rw [if_neg hpk, if_neg hpk]
    · rw [updateAL, if_neg hp]
      show (if p.1 = k then some p.2 else lookupAL (updateAL rest k2 s) k)
          = (if p.1 = k then some p.2 else lookupAL rest k)
      by_cases hpk : p.1 = k
      · rw [if_pos hpk, if_pos hpk]
      · rw [if_neg hpk, if_neg hpk]
        exact ih h s

theorem scope_lookup_char (relBase : List String) (k : String) :
    ∀ (m acc : List (String × GitStatus)),
      lookupAL (m.foldl (scopeStep relBase) acc) k
        = (relevantOf relBase k m).foldl gitCombineO (lookupAL acc k) := by
  intro m
  induction m with
  | nil => intro acc; rfl
  | cons p rest ih =>
    intro acc
    rw [List.foldl_cons]
    by_cases hsel : relBase.isPrefixOf (pathComponents p.1) ∧
        ((pathComponents p.1).drop relBase.length).head? = some k
    · obtain ⟨hpre, hhead⟩ := hsel
      obtain ⟨t, ht⟩ : ∃ t, (pathComponents p.1).drop relBase.length = k :: t := by
        rcases hdrop : (pathComponents p.1).drop relBase.length with _ | ⟨k2, t⟩
        · rw [hdrop] at hhead
          cases hhead
        · rw [hdrop] at hhead
          have hk2 : k2 = k := Option.some.inj hhead
          subst hk2
          exact ⟨t, rfl⟩
      have hstep : scopeStep relBase acc p = updateAL acc k p.2 := by
        unfold scopeStep
        rw [if_pos hpre, ht]
      have hrel : relevantOf relBase k (p :: rest)
          = p.2 :: relevantOf relBase k rest := by
        unfold relevantOf
        rw [List.filterMap_cons, if_pos ⟨hpre, hhead⟩]
      rw [hstep, hrel, List.foldl_cons, ih (updateAL acc k p.2),
        lookupAL_updateAL_same]
    · have hrel : relevantOf relBase k (p :: rest)
          = relevantOf relBase k rest := by
        unfold relevantOf
        rw [List.filterMap_cons, if_neg hsel]
      by_cases hpre : relBase.isPrefixOf (pathComponents p.1)
      · rcases hdrop : (pathComponents p.1).drop relBase.length with _ | ⟨k2, t⟩
        · have hstep : scopeStep relBase acc p = acc := by
            unfold scopeStep
            rw [if_pos hpre, hdrop]
          rw [hstep, hrel, ih acc]
        · have hk2 : k2 ≠ k := by
            intro hc
            exact hsel ⟨hpre, by rw [hdrop, hc]; rfl⟩
          have hstep : scopeStep relBase acc p = updateAL acc k2 p.2 := by
            unfold scopeStep
            rw [if_pos hpre, hdrop]
          rw [hstep, hrel, ih (updateAL acc k2 p.2),
            lookupAL_updateAL_ne _ hk2]
      · have hstep : scopeStep relBase acc p = acc := by
          unfold scopeStep
          rw [if_neg hpre]
        rw [hstep, hrel, ih acc]

/-- C5: every key of the scoped status map is a single path component (a
direct child name): splitting it again yields just itself.  A record at
path sub/dir/file.txt under listed directory sub aggregates entirely
under the child key dir, and a record whose path is not under the listed
directory is discarded. -/
theorem scope_keys_single_component :
    (∀ (m : List (String × GitStatus)) (relBase : List String)
      (k : String), k ∈ (scope_git_entries m relBase).map Prod.fst →
        pathComponents k = [k])
    ∧ (∀ s : GitStatus,
        scope_git_entries [("sub/dir/file.txt", s)] ["sub"] = [("dir", s)])
    ∧ (∀ s : GitStatus,
        scope_git_entries [("other/file.txt", s)] ["sub"] = []) := by
  refine ⟨?_, ?_, ?_⟩
  · intro m relBase k hk
    refine scope_keys_aux relBase m [] ?_ k hk
    intro k2 hk2
    cases hk2
  · intro s
    show [("dir", gitCombine ⟨none, none, false, false⟩ s)] = [("dir", s)]
    rw [gitCombine_default]
  · intro s
    rfl

/-- C5 witness: the key dir of the scoped example map is a single path
component. -/
theorem scope_keys_single_component_witness :
    pathComponents "dir" = ["dir"] :=
  scope_keys_single_component.1 [("sub/dir/file.txt", ⟨none, none, true, false⟩)]
    ["sub"] "dir" (by decide)

/-- C10: scoping is order-independent: permuting the input map leaves the
scoped output unchanged as a map (the per-group flag OR and optional
count sum are commutative and associative with absent counts as
identity), so the result is deterministic despite unordered hash-map
iteration. -/
theorem scope_git_entries_perm_invariant :
    ∀ (m₁ m₂ : List (String × GitStatus)) (relBase : List String),
      List.Perm m₁ m₂ →
      ∀ k : String, lookupAL (scope_git_entries m₁ relBase) k
        = lookupAL (scope_git_entries m₂ relBase) k := by
  intro m₁ m₂ relBase hperm k
  unfold scope_git_entries
  rw [scope_lookup_char relBase k m₁ [], scope_lookup_char relBase k m₂ []]
  exact foldl_gitCombineO_perm (hperm.filterMap _) _

/-- C10 witness: two orderings of a concrete two-record map scope to the
same map. -/
theorem scope_git_entries_perm_invariant_witness :
    lookupAL (scope_git_entries
      [("a/x.txt", ⟨some 1, none, true, false⟩),
       ("a/y.txt", ⟨some 2, some 3, false, true⟩)] []) "a"
    = lookupAL (scope_git_entries
      [("a/y.txt", ⟨some 2, some 3, false, true⟩),
       ("a/x.txt", ⟨some 1, none, true, false⟩)] []) "a" :=
  scope_git_entries_perm_invariant _ _ [] (by decide) "a"

/-- C4 counterexample: an elapsed time of exactly 60 seconds is bucketed
as Minutes, the older of the two adjacent buckets, not the more recent
Seconds bucket that the claim assigns to exact threshold values. -/
theorem recency_boundary_counterexample :
    (format_relative_time 60 0).2 = Recency.Minutes ∧
      Recency.Minutes ≠ Recency.Seconds := by
  decide

/-- C4 (amended): for every past instant the recency category is chosen
by the elapsed-seconds thresholds, each bucket covering the left-closed
right-open interval between its threshold and the next, so an elapsed
duration exactly equal to a threshold belongs to the higher (older)
bucket. -/
theorem recency_thresholds (now ts : Nat) (h : ts ≤ now) :
    ((format_relative_time now ts).2 = Recency.JustNow ↔ now - ts < 5) ∧
    ((format_relative_time now ts).2 = Recency.Seconds ↔
      5 ≤ now - ts ∧ now - ts < 60) ∧
    ((format_relative_time now ts).2 = Recency.Minutes ↔
      60 ≤ now - ts ∧ now - ts < 3600) ∧
    ((format_relative_time now ts).2 = Recency.Hours ↔
      3600 ≤ now - ts ∧ now - ts < 86400) ∧
    ((format_relative_time now ts).2 = Recency.Days ↔
      86400 ≤ now - ts ∧ now - ts < 604800) ∧
    ((format_relative_time now ts).2 = Recency.Weeks ↔
      604800 ≤ now - ts ∧ now - ts < 2629746) ∧
    ((format_relative_time now ts).2 = Recency.Months ↔
      2629746 ≤ now - ts ∧ now - ts < 31557600) ∧
    ((format_relative_time now ts).2 = Recency.Years ↔
      31557600 ≤ now - ts) := by
  have hsnd : (format_relative_time now ts).2 = recencyOfElapsed (now - ts) := by
    unfold format_relative_time
    rw [if_pos h]
  rw [hsnd]
  rcases Nat.lt_or_ge (now - ts) 5 with h1 | h1
  · have hval : recencyOfElapsed (now - ts) = Recency.JustNow := by
      unfold recencyOfElapsed
      rw [if_pos h1]
    rw [hval]
    refine ⟨?_, ?_, ?_, ?_, ?_, ?_, ?_, ?_⟩ <;> constructor <;> intro hx <;>
      first
        | omega
        | rfl
        | exact (Recency.noConfusion hx)
        | exact absurd hx (by omega)
  · rcases Nat.lt_or_ge (now - ts) 60 with h2 | h2
    · have hval : recencyOfElapsed (now - ts) = Recency.Seconds := by
        unfold recencyOfElapsed
        rw [if_neg (by omega), if_pos h2]
      rw [hval]
      refine ⟨?_, ?_, ?_, ?_, ?_, ?_, ?_, ?_⟩ <;> constructor <;> intro hx <;>
        first
          | omega
          | rfl
          | exact (Recency.noConfusion hx)
          | exact absurd hx (by omega)
    · rcases Nat.lt_or_ge (now - ts) 3600 with h3 | h3
      · have hval : recencyOfElapsed (now - ts) = Recency.Minutes := by
          unfold recencyOfElapsed
          rw [if_neg (by omega), if_neg (by omega), if_pos h3]
        rw [hval]
        refine ⟨?_, ?_, ?_, ?_, ?_, ?_, ?_, ?_⟩ <;> constructor <;> intro hx <;>
          first
            | omega
            | rfl
            | exact (Recency.noConfusion hx)
            | exact absurd hx (by omega)
      · rcases Nat.lt_or_ge (now - ts) 86400 with h4 | h4
        · have hval : recencyOfElapsed (now - ts) = Recency.Hours := by
            unfold recencyOfElapsed
            rw [if_neg (by omega), if_neg (by omega), if_neg (by omega),
              if_pos h4]
          rw [hval]
          refine ⟨?_, ?_, ?_, ?_, ?_, ?_, ?_, ?_⟩ <;> constructor <;>
            intro hx <;>
            first
              | omega
              | rfl
              | exact (Recency.noConfusion hx)
              | exact absurd hx (by omega)
        · rcases Nat.lt_or_ge (now - ts) 604800 with h5 | h5
          · have hval : recencyOfElapsed (now - ts) = Recency.Days := by
              unfold recencyOfElapsed
              rw [if_neg (by omega), if_neg (by omega), if_neg (by omega),
                if_neg (by omega), if_pos h5]
            rw [hval]
            refine ⟨?_, ?_, ?_, ?_, ?_, ?_, ?_, ?_⟩ <;> constructor <;>
              intro hx <;>
              first
                | omega
                | rfl
                | exact (Recency.noConfusion hx)
                | exact absurd hx (by omega)
          · rcases Nat.lt_or_ge (now - ts) 2629746 with h6 | h6
            · have hval : recencyOfElapsed (now - ts) = Recency.Weeks := by
                unfold recencyOfElapsed
                rw [if_neg (by omega), if_neg (by omega), if_neg (by omega),
                  if_neg (by omega), if_neg (by omega), if_pos h6]
              rw [hval]
              refine ⟨?_, ?_, ?_, ?_, ?_, ?_, ?_, ?_⟩ <;> constructor <;>
                intro hx <;>
                first
                  | omega
                  | rfl
                  | exact (Recency.noConfusion hx)
                  | exact absurd hx (by omega)
            · rcases Nat.lt_or_ge (now - ts) 31557600 with h7 | h7
              · have hval : recencyOfElapsed (now - ts) = Recency.Months := by
                  unfold recencyOfElapsed
                  rw [if_neg (by omega), if_neg (by omega), if_neg (by omega),
                    if_neg (by omega), if_neg (by omega), if_neg (by omega),
                    if_pos h7]
                rw [hval]
                refine ⟨?_, ?_, ?_, ?_, ?_, ?_, ?_, ?_⟩ <;> constructor <;>
                  intro hx <;>
                  first
                    | omega
                    | rfl
                    | exact (Recency.noConfusion hx)
                    | exact absurd hx (by omega)
              · have hval : recencyOfElapsed (now - ts) = Recency.Years := by
                  unfold recencyOfElapsed
                  rw [if_neg (by omega), if_neg (by omega), if_neg (by omega),
                    if_neg (by omega), if_neg (by omega), if_neg (by omega),
                    if_neg (by omega)]
                rw [hval]
                refine ⟨?_, ?_, ?_, ?_, ?_, ?_, ?_, ?_⟩ <;> constructor <;>
                  intro hx <;>
                  first
                    | omega
                    | rfl
                    | exact (Recency.noConfusion hx)
                    | exact absurd hx (by omega)

/-- C4 witness: an elapsed time of exactly 3600 seconds falls in the
Hours bucket. -/
theorem recency_thresholds_witness :
    (format_relative_time 3700 100).2 = Recency.Hours :=
  ((recency_thresholds 3700 100 (by decide)).2.2.2.1).mpr (by decide)

/-- C7: a clean record (not dirty, not untracked) formats to an empty
plain suffix with a colored clean label; otherwise the suffix is the
ordered token list of the spec (untracked marker when no numeric added
count, then the added count, then the deleted count, with the single
token dirty as fallback) joined by spaces and parenthesized; in
particular added 3, deleted 1, dirty gives the plain suffix (+3 -1). -/
theorem format_git_spec :
    (∀ st : GitStatus,
      format_git st =
        if st.dirty = false ∧ st.untracked = false then
          some ("", palette.paint "(clean)" palette.GIT_CLEAN)
        else
          some ("(" ++ joinSep " " (specGitTokens st) ++ ")",
                "(" ++ joinSep " " (specGitTokensColored st) ++ ")"))
    ∧ (format_git ⟨some 3, some 1, true, false⟩).map Prod.fst
        = some "(+3 -1)" := by
  constructor
  · intro st
    rcases st with ⟨ad, de, di, un⟩
    rcases di <;> rcases un <;> rcases ad with _ | a <;>
      rcases de with _ | d <;> rfl
  · rfl

/-- C7 witness: the concrete example record evaluated through the
theorem. -/
theorem format_git_spec_witness :
    (format_git ⟨some 3, some 1, true, false⟩).map Prod.fst
      = some "(+3 -1)" :=
  format_git_spec.2

theorem paren_ne_empty (x : String) : ("(" ++ x ++ ")" : String) ≠ "" := by
  intro hc
  have h2 : ("(" ++ x ++ ")" : String).data = ("" : String).data :=
    congrArg String.data hc
  have h3 : ('(' :: (x.data ++ [')'])) = ([] : List Char) := h2
  cases h3

theorem gitName_some (n c : String) (g : GitStatus) :
    gitName n c (some g) =
      (let sfx := (format_git g).getD ("", "")
       if sfx.1 = "" then (n, c)
       else (n ++ " " ++ sfx.1, c ++ " " ++ sfx.2)) := rfl

/-- C3 counterexample: a child carrying a fully clean status record keeps
both name representations unchanged; in particular the colored clean
label is not appended to the colored name, contrary to the claim. -/
theorem makeRow_clean_label_counterexample :
    (makeRow 0 (some [("f", ⟨none, none, false, false⟩)])
        ⟨"f", false, false, 0, none⟩).name_with_git_colored
      ≠ color_name "f" EntryType.File false false ++ " "
        ++ palette.paint "(clean)" palette.GIT_CLEAN := by
  decide

/-- C3 (amended): a collected child with a matching status record whose
formatted plain suffix is nonempty (a non-clean record) has that suffix
appended to both the plain and the colored name, separated by a single
space; a child with a matching clean record keeps both representations
unchanged (the colored clean label is discarded), and a child with no
matching record keeps both representations unchanged. -/
theorem makeRow_git_suffix :
    ∀ (now : Nat) (info : List (String × GitStatus)) (e : RawEntry),
      (lookupAL info e.name = none →
        (makeRow now (some info) e).name_with_git_plain = e.name ∧
        (makeRow now (some info) e).name_with_git_colored
          = color_name e.name
              (if e.isDir then EntryType.Dir else EntryType.File)
              e.isExec (strStartsWith e.name ".")) ∧
      (∀ g : GitStatus, lookupAL info e.name = some g →
        g.dirty = false → g.untracked = false →
        (makeRow now (some info) e).name_with_git_plain = e.name ∧
        (makeRow now (some info) e).name_with_git_colored
          = color_name e.name
              (if e.isDir then EntryType.Dir else EntryType.File)
              e.isExec (strStartsWith e.name ".")) ∧
      (∀ g : GitStatus, lookupAL info e.name = some g →
        (g.dirty = true ∨ g.untracked = true) →
        (makeRow now (some info) e).name_with_git_plain
          = e.name ++ " " ++ ("(" ++ joinSep " " (specGitTokens g) ++ ")") ∧
        (makeRow now (some info) e).name_with_git_colored
          = color_name e.name
              (if e.isDir then EntryType.Dir else EntryType.File)
              e.isExec (strStartsWith e.name ".") ++ " "
            ++ ("(" ++ joinSep " " (specGitTokensColored g) ++ ")")) := by
  intro now info e
  refine ⟨?_, ?_, ?_⟩
  · intro hnone
    constructor
    · show (gitName e.name
          (color_name e.name (if e.isDir then EntryType.Dir else EntryType.File)
            e.isExec (strStartsWith e.name "."))
          (lookupAL info e.name)).1 = e.name
      rw [hnone]
      rfl
    · show (gitName e.name
          (color_name e.name (if e.isDir then EntryType.Dir else EntryType.File)
            e.isExec (strStartsWith e.name "."))
          (lookupAL info e.name)).2 = _
      rw [hnone]
      rfl
  · intro g hg hd hu
    have hclean : format_git g
        = some ("", palette.paint "(clean)" palette.GIT_CLEAN) := by
      rw [format_git_spec.1 g, if_pos ⟨hd, hu⟩]
    constructor
    · show (gitName e.name
          (color_name e.name (if e.isDir then EntryType.Dir else EntryType.File)
            e.isExec (strStartsWith e.name "."))
          (lookupAL info e.name)).1 = e.name
      rw [hg, gitName_some, hclean]
      rfl
    · show (gitName e.name
          (color_name e.name (if e.isDir then EntryType.Dir else EntryType.File)
            e.isExec (strStartsWith e.name "."))
          (lookupAL info e.name)).2 = _
      rw [hg, gitName_some, hclean]
      rfl
  · intro g hg hnc
    have hfg : format_git g
        = some ("(" ++ joinSep " " (specGitTokens g) ++ ")",
            "(" ++ joinSep " " (specGitTokensColored g) ++ ")") := by
      rw [format_git_spec.1 g, if_neg ?_]
      rintro ⟨h1, h2⟩
      rcases hnc with h | h
      · rw [h] at h1
        cases h1
      · rw [h] at h2
        cases h2
    constructor
    · show (gitName e.name
          (color_name e.name (if e.isDir then EntryType.Dir else EntryType.File)
            e.isExec (strStartsWith e.name "."))
          (lookupAL info e.name)).1 = _
      rw [hg, gitName_some, hfg]
      show ((if ("(" ++ joinSep " " (specGitTokens g) ++ ")" : String) = ""
          then _ else _ : String × String)).1 = _
      rw [if_neg (paren_ne_empty _)]
      rfl
    · show (gitName e.name
          (color_name e.name (if e.isDir then EntryType.Dir else EntryType.File)
            e.isExec (strStartsWith e.name "."))
          (lookupAL info e.name)).2 = _
      rw [hg, gitName_some, hfg]
      show ((if ("(" ++ joinSep " " (specGitTokens g) ++ ")" : String) = ""
          then _ else _ : String × String)).2 = _
      rw [if_neg (paren_ne_empty _)]
      rfl

/-- C3 witness: a child with a dirty record with an added count of 2 gets
the suffix (+2) appended to its plain name. -/
theorem makeRow_git_suffix_witness :
    (makeRow 0 (some [("a.txt", ⟨some 2, none, true, false⟩)])
        ⟨"a.txt", false, false, 0, none⟩).name_with_git_plain
      = "a.txt" ++ " " ++ ("(" ++ joinSep " "
          (specGitTokens ⟨some 2, none, true, false⟩) ++ ")") :=
  ((makeRow_git_suffix 0 [("a.txt", ⟨some 2, none, true, false⟩)]
      ⟨"a.txt", false, false, 0, none⟩).2.2 ⟨some 2, none, true, false⟩
    (by decide) (Or.inl rfl)).1

/-- C1 counterexample: a non-success exit of the porcelain status
command (the first status subprocess) is a hard error that aborts the
run, not the graceful status-unavailable path the claim assigns to it. -/
theorem load_git_info_status_failure_counterexample :
    load_git_info (some ⟨true, ""⟩) (some ⟨false, ""⟩) none []
      = Except.error "git status failed" := rfl

/-- C1 (amended): the graceful degradation path belongs to the
repository-root discovery command: its spawn failure or non-success exit
yields status-unavailable (ok none) and the caller proceeds; a spawn
failure or non-success exit of either the porcelain status command or the
numstat diff command escalates to a hard error that aborts the run. -/
theorem load_git_info_failure_modes :
    ∀ (rvOut stOut dfOut : String) (st df : Option CmdOut)
      (absList : List String),
      load_git_info none st df absList = .ok none ∧
      load_git_info (some ⟨false, rvOut⟩) st df absList = .ok none ∧
      ((pathComponents (trimStr rvOut)).isPrefixOf absList = true →
        load_git_info (some ⟨true, rvOut⟩) none df absList
          = .error "failed to run git status" ∧
        load_git_info (some ⟨true, rvOut⟩) (some ⟨false, stOut⟩) df absList
          = .error "git status failed" ∧
        load_git_info (some ⟨true, rvOut⟩) (some ⟨true, stOut⟩) none absList
          = .error "failed to run git diff" ∧
        load_git_info (some ⟨true, rvOut⟩) (some ⟨true, stOut⟩)
            (some ⟨false, dfOut⟩) absList
          = .error "git diff failed") := by
  intro rvOut stOut dfOut st df absList
  refine ⟨rfl, rfl, ?_⟩
  intro hpre
  refine ⟨?_, ?_, ?_, ?_⟩
  · show (if (pathComponents (trimStr rvOut)).isPrefixOf absList
        then _ else _ : Except String (Option (List (String × GitStatus))))
      = _
    rw [if_pos hpre]
  · show (if (pathComponents (trimStr rvOut)).isPrefixOf absList
        then _ else _ : Except String (Option (List (String × GitStatus))))
      = _
    rw [if_pos hpre]
  · show (if (pathComponents (trimStr rvOut)).isPrefixOf absList
        then _ else _ : Except String (Option (List (String × GitStatus))))
      = _
    rw [if_pos hpre]
  · show (if (pathComponents (trimStr rvOut)).isPrefixOf absList
        then _ else _ : Except String (Option (List (String × GitStatus))))
      = _
    rw [if_pos hpre]

/-- C1 witness: with a succeeding root discovery and a succeeding
porcelain status, a failing numstat diff aborts with the diff error. -/
theorem load_git_info_failure_modes_witness :
    load_git_info (some ⟨true, ""⟩) (some ⟨true, ""⟩) (some ⟨false, ""⟩) []
      = Except.error "git diff failed" :=
  ((load_git_info_failure_modes "" "" "" none none []).2.2 (by decide)).2.2.2

theorem fmtDec0_natCast (n : ℕ) : fmtDec0 ((n : ℚ)) = toString n := by
  unfold fmtDec0 roundHalfEven
  rw [Int.floor_natCast]
  have h0 : ((n : ℚ) - ((n : ℤ) : ℚ)) = 0 := by push_cast; ring
  rw [h0, if_pos (by norm_num : (0 : ℚ) < 1 / 2)]
  rfl

/-- C8: the size formatter picks the largest 1024-based unit whose scale
does not exceed the byte count (bytes when none does), and renders the
scaled value with one decimal place when it is below ten and the unit is
not bytes, otherwise as a rounded integer; byte counts render as the
plain integer. -/
theorem format_size_spec :
    ∀ size : Nat,
      chooseUnit size = specUnit size ∧
      ((specUnit size).2 ≤ size ∨ size = 0) ∧
      (∀ u ∈ sizeUnits, u.2 ≤ size → u.2 ≤ (specUnit size).2) ∧
      format_size size =
        (if (specUnit size).1 = "B" then toString size
         else if ((size : ℚ) / ((specUnit size).2 : ℚ)) < 10 then
           fmtDec1 ((size : ℚ) / ((specUnit size).2 : ℚ))
         else fmtDec0 ((size : ℚ) / ((specUnit size).2 : ℚ)))
        ++ " " ++ (specUnit size).1 := by
  intro size
  rcases Nat.eq_zero_or_pos size with rfl | hpos
  · have hsu : specUnit 0 = ("B", 1) := rfl
    have hcu : chooseUnit 0 = ("B", 1) := rfl
    refine ⟨rfl, Or.inr rfl, ?_, ?_⟩
    · intro u hu hle
      simp only [sizeUnits, List.mem_cons, List.not_mem_nil, or_false] at hu
      rcases hu with rfl | rfl | rfl | rfl | rfl <;> omega
    · simp only [format_size]
      rw [hcu, hsu]
      rw [show (("B", 1) : String × ℕ).1 = "B" from rfl,
        show (("B", 1) : String × ℕ).2 = 1 from rfl]
      rw [if_neg (show ¬(((0 : ℕ) : ℚ) / ((1 : ℕ) : ℚ) < 10 ∧ ("B" : String) ≠ "B") from fun hc => hc.2 rfl),
        if_pos (show ("B" : String) = "B" from rfl)]
      have hv1 : (((0 : ℕ) : ℚ) / ((1 : ℕ) : ℚ)) = (((0 : ℕ)) : ℚ) := by
        norm_num
      rw [hv1, fmtDec0_natCast]
  · rcases Nat.lt_or_ge size 1024 with hup | hlow
    · have hfil : sizeUnits.filter (fun u : String × Nat => u.2 ≤ size)
          = [("B", 1)] := by
        unfold sizeUnits
        rw [List.filter_cons,
      if_pos (show decide (1 ≤ size) = true by rw [decide_eq_true_eq]; omega),
      List.filter_cons,
      if_neg (show ¬(decide (1024 ≤ size) = true) by rw [decide_eq_true_eq]; omega),
      List.filter_cons,
      if_neg (show ¬(decide (1048576 ≤ size) = true) by rw [decide_eq_true_eq]; omega),
      List.filter_cons,
      if_neg (show ¬(decide (1073741824 ≤ size) = true) by rw [decide_eq_true_eq]; omega),
      List.filter_cons,
      if_neg (show ¬(decide (1099511627776 ≤ size) = true) by rw [decide_eq_true_eq]; omega),
      List.filter_nil]
      have hsu : specUnit size = ("B", 1) := by
        unfold specUnit
        rw [hfil]
        rfl
      have hcu : chooseUnit size = ("B", 1) := by
        simp only [chooseUnit, sizeUnits, chooseUnitAux]
        rw [if_pos (show 1 ≤ size by omega), if_neg (show ¬(1024 ≤ size) by omega)]
      refine ⟨hcu.trans hsu.symm, Or.inl (by rw [hsu]; omega), ?_, ?_⟩
      · intro u hu hle
        rw [hsu]
        simp only [sizeUnits, List.mem_cons, List.not_mem_nil, or_false] at hu
        rcases hu with rfl | rfl | rfl | rfl | rfl <;> omega
      · simp only [format_size]
        rw [hcu, hsu]
        rw [show (("B", 1) : String × ℕ).1 = "B" from rfl,
          show (("B", 1) : String × ℕ).2 = 1 from rfl]
        rw [if_neg (show ¬(((size : ℕ) : ℚ) / ((1 : ℕ) : ℚ) < 10 ∧ ("B" : String) ≠ "B") from fun hc => hc.2 rfl),
          if_pos (show ("B" : String) = "B" from rfl)]
        have hv1 : (((size : ℕ) : ℚ) / ((1 : ℕ) : ℚ)) = (((size : ℕ)) : ℚ) := by
          norm_num
        rw [hv1, fmtDec0_natCast]
    · rcases Nat.lt_or_ge size 1048576 with hup | hlow
      · have hfil : sizeUnits.filter (fun u : String × Nat => u.2 ≤ size)
            = [("B", 1), ("KB", 1024)] := by
          unfold sizeUnits
          rw [List.filter_cons,
      if_pos (show decide (1 ≤ size) = true by rw [decide_eq_true_eq]; omega),
      List.filter_cons,
      if_pos (show decide (1024 ≤ size) = true by rw [decide_eq_true_eq]; omega),
      List.filter_cons,
      if_neg (show ¬(decide (1048576 ≤ size) = true) by rw [decide_eq_true_eq]; omega),
      List.filter_cons,
      if_neg (show ¬(decide (1073741824 ≤ size) = true) by rw [decide_eq_true_eq]; omega),
      List.filter_cons,
      if_neg (show ¬(decide (1099511627776 ≤ size) = true) by rw [decide_eq_true_eq]; omega),
      List.filter_nil]
        have hsu : specUnit size = ("KB", 1024) := by
          unfold specUnit
          rw [hfil]
          rfl
        have hcu : chooseUnit size = ("KB", 1024) := by
          simp only [chooseUnit, sizeUnits, chooseUnitAux]
          rw [if_pos (show 1 ≤ size by omega), if_pos (show 1024 ≤ size by omega), if_neg (show ¬(1048576 ≤ size) by omega)]
        refine ⟨hcu.trans hsu.symm, Or.inl (by rw [hsu]; omega), ?_, ?_⟩
        · intro u hu hle
          rw [hsu]
          simp only [sizeUnits, List.mem_cons, List.not_mem_nil, or_false] at hu
          rcases hu with rfl | rfl | rfl | rfl | rfl <;> omega
        · simp only [format_size]
          rw [hcu, hsu]
          rw [show (("KB", 1024) : String × ℕ).1 = "KB" from rfl,
            show (("KB", 1024) : String × ℕ).2 = 1024 from rfl]
          by_cases hv : (((size : ℕ) : ℚ) / ((1024 : ℕ) : ℚ)) < 10
          · rw [if_pos (show ((size : ℕ) : ℚ) / ((1024 : ℕ) : ℚ) < 10 ∧ ("KB" : String) ≠ "B" from ⟨hv, by decide⟩),
              if_neg (show ¬(("KB" : String) = "B") by decide), if_pos hv]
          · rw [if_neg (show ¬(((size : ℕ) : ℚ) / ((1024 : ℕ) : ℚ) < 10 ∧ ("KB" : String) ≠ "B") from fun hc => hv hc.1),
              if_neg (show ¬(("KB" : String) = "B") by decide), if_neg hv]
      · rcases Nat.lt_or_ge size 1073741824 with hup | hlow
        · have hfil : sizeUnits.filter (fun u : String × Nat => u.2 ≤ size)
              = [("B", 1), ("KB", 1024), ("MB", 1048576)] := by
            unfold sizeUnits
            rw [List.filter_cons,
      if_pos (show decide (1 ≤ size) = true by rw [decide_eq_true_eq]; omega),
      List.filter_cons,
      if_pos (show decide (1024 ≤ size) = true by rw [decide_eq_true_eq]; omega),
      List.filter_cons,
      if_pos (show decide (1048576 ≤ size) = true by rw [decide_eq_true_eq]; omega),
      List.filter_cons,
      if_neg (show ¬(decide (1073741824 ≤ size) = true) by rw [decide_eq_true_eq]; omega),
      List.filter_cons,
      if_neg (show ¬(decide (1099511627776 ≤ size) = true) by rw [decide_eq_true_eq]; omega),
      List.filter_nil]
          have hsu : specUnit size = ("MB", 1048576) := by
            unfold specUnit
            rw [hfil]
            rfl
          have hcu : chooseUnit size = ("MB", 1048576) := by
            simp only [chooseUnit, sizeUnits, chooseUnitAux]
            rw [if_pos (show 1 ≤ size by omega), if_pos (show 1024 ≤ size by omega), if_pos (show 1048576 ≤ size by omega), if_neg (show ¬(1073741824 ≤ size) by omega)]
          refine ⟨hcu.trans hsu.symm, Or.inl (by rw [hsu]; omega), ?_, ?_⟩
          · intro u hu hle
            rw [hsu]
            simp only [sizeUnits, List.mem_cons, List.not_mem_nil, or_false] at hu
            rcases hu with rfl | rfl | rfl | rfl | rfl <;> omega
          · simp only [format_size]
            rw [hcu, hsu]
            rw [show (("MB", 1048576) : String × ℕ).1 = "MB" from rfl,
              show (("MB", 1048576) : String × ℕ).2 = 1048576 from rfl]
            by_cases hv : (((size : ℕ) : ℚ) / ((1048576 : ℕ) : ℚ)) < 10
            · rw [if_pos (show ((size : ℕ) : ℚ) / ((1048576 : ℕ) : ℚ) < 10 ∧ ("MB" : String) ≠ "B" from ⟨hv, by decide⟩),
                if_neg (show ¬(("MB" : String) = "B") by decide), if_pos hv]
            · rw [if_neg (show ¬(((size : ℕ) : ℚ) / ((1048576 : ℕ) : ℚ) < 10 ∧ ("MB" : String) ≠ "B") from fun hc => hv hc.1),
                if_neg (show ¬(("MB" : String) = "B") by decide), if_neg hv]
        · rcases Nat.lt_or_ge size 1099511627776 with hup | hlow
          · have hfil : sizeUnits.filter (fun u : String × Nat => u.2 ≤ size)
                = [("B", 1), ("KB", 1024), ("MB", 1048576), ("GB", 1073741824)] := by
              unfold sizeUnits
              rw [List.filter_cons,
      if_pos (show decide (1 ≤ size) = true by rw [decide_eq_true_eq]; omega),
      List.filter_cons,
      if_pos (show decide (1024 ≤ size) = true by rw [decide_eq_true_eq]; omega),
      List.filter_cons,
      if_pos (show decide (1048576 ≤ size) = true by rw [decide_eq_true_eq]; omega),
      List.filter_cons,
      if_pos (show decide (1073741824 ≤ size) = true by rw [decide_eq_true_eq]; omega),
      List.filter_cons,
      if_neg (show ¬(decide (1099511627776 ≤ size) = true) by rw [decide_eq_true_eq]; omega),
      List.filter_nil]
            have hsu : specUnit size = ("GB", 1073741824) := by
              unfold specUnit
              rw [hfil]
              rfl
            have hcu : chooseUnit size = ("GB", 1073741824) := by
              simp only [chooseUnit, sizeUnits, chooseUnitAux]
              rw [if_pos (show 1 ≤ size by omega), if_pos (show 1024 ≤ size by omega), if_pos (show 1048576 ≤ size by omega), if_pos (show 1073741824 ≤ size by omega), if_neg (show ¬(1099511627776 ≤ size) by omega)]
            refine ⟨hcu.trans hsu.symm, Or.inl (by rw [hsu]; omega), ?_, ?_⟩
            · intro u hu hle
              rw [hsu]
              simp only [sizeUnits, List.mem_cons, List.not_mem_nil, or_false] at hu
              rcases hu with rfl | rfl | rfl | rfl | rfl <;> omega
            · simp only [format_size]
              rw [hcu, hsu]
              rw [show (("GB", 1073741824) : String × ℕ).1 = "GB" from rfl,
                show (("GB", 1073741824) : String × ℕ).2 = 1073741824 from rfl]
              by_cases hv : (((size : ℕ) : ℚ) / ((1073741824 : ℕ) : ℚ)) < 10
              · rw [if_pos (show ((size : ℕ) : ℚ) / ((1073741824 : ℕ) : ℚ) < 10 ∧ ("GB" : String) ≠ "B" from ⟨hv, by decide⟩),
                  if_neg (show ¬(("GB" : String) = "B") by decide), if_pos hv]
              · rw [if_neg (show ¬(((size : ℕ) : ℚ) / ((1073741824 : ℕ) : ℚ) < 10 ∧ ("GB" : String) ≠ "B") from fun hc => hv hc.1),
                  if_neg (show ¬(("GB" : String) = "B") by decide), if_neg hv]
          · have hfil : sizeUnits.filter (fun u : String × Nat => u.2 ≤ size)
                = [("B", 1), ("KB", 1024), ("MB", 1048576), ("GB", 1073741824), ("TB", 1099511627776)] := by
              unfold sizeUnits
              rw [List.filter_cons,
      if_pos (show decide (1 ≤ size) = true by rw [decide_eq_true_eq]; omega),
      List.filter_cons,
      if_pos (show decide (1024 ≤ size) = true by rw [decide_eq_true_eq]; omega),
      List.filter_cons,
      if_pos (show decide (1048576 ≤ size) = true by rw [decide_eq_true_eq]; omega),
      List.filter_cons,
      if_pos (show decide (1073741824 ≤ size) = true by rw [decide_eq_true_eq]; omega),
      List.filter_cons,
      if_pos (show decide (1099511627776 ≤ size) = true by rw [decide_eq_true_eq]; omega),
      List.filter_nil]
            have hsu : specUnit size = ("TB", 1099511627776) := by
              unfold specUnit
              rw [hfil]
              rfl
            have hcu : chooseUnit size = ("TB", 1099511627776) := by
              simp only [chooseUnit, sizeUnits, chooseUnitAux]
              rw [if_pos (show 1 ≤ size by omega), if_pos (show 1024 ≤ size by omega), if_pos (show 1048576 ≤ size by omega), if_pos (show 1073741824 ≤ size by omega), if_pos (show 1099511627776 ≤ size by omega)]
            refine ⟨hcu.trans hsu.symm, Or.inl (by rw [hsu]; omega), ?_, ?_⟩
            · intro u hu hle
              rw [hsu]
              simp only [sizeUnits, List.mem_cons, List.not_mem_nil, or_false] at hu
              rcases hu with rfl | rfl | rfl | rfl | rfl <;> omega
            · simp only [format_size]
              rw [hcu, hsu]
              rw [show (("TB", 1099511627776) : String × ℕ).1 = "TB" from rfl,
                show (("TB", 1099511627776) : String × ℕ).2 = 1099511627776 from rfl]
              by_cases hv : (((size : ℕ) : ℚ) / ((1099511627776 : ℕ) : ℚ)) < 10
              · rw [if_pos (show ((size : ℕ) : ℚ) / ((1099511627776 : ℕ) : ℚ) < 10 ∧ ("TB" : String) ≠ "B" from ⟨hv, by decide⟩),
                  if_neg (show ¬(("TB" : String) = "B") by decide), if_pos hv]
              · rw [if_neg (show ¬(((size : ℕ) : ℚ) / ((1099511627776 : ℕ) : ℚ) < 10 ∧ ("TB" : String) ≠ "B") from fun hc => hv hc.1),
                  if_neg (show ¬(("TB" : String) = "B") by decide), if_neg hv]

/-- C8 witness: at the unit boundary, 1024 bytes selects the KB unit,
whose scale is the largest table scale not exceeding the count. -/
theorem format_size_spec_witness :
    chooseUnit 1024 = specUnit 1024 ∧ 1024 ≤ (specUnit 1024).2 :=
  And.intro (format_size_spec 1024).1
    ((format_size_spec 1024).2.2.1 ("KB", 1024) (by decide) (by decide))

theorem toDigitsCore_length :
    ∀ (fuel n : Nat) (acc : List Char), n < fuel →
      (Nat.toDigitsCore 10 fuel n acc).length = digitCount n + acc.length := by
  intro fuel
  induction fuel with
  | zero =>
    intro n acc h
    exact absurd h (Nat.not_lt_zero n)
  | succ f ih =>
    intro n acc h
    by_cases h10 : n / 10 = 0
    · have hred : Nat.toDigitsCore 10 (f + 1) n acc
          = Nat.digitChar (n % 10) :: acc := by
        show (if n / 10 = 0 then _ else _) = _
        rw [if_pos h10]
      rw [hred, digitCount, if_pos (by omega : n < 10), List.length_cons]
      omega
    · have hred : Nat.toDigitsCore 10 (f + 1) n acc
          = Nat.toDigitsCore 10 f (n / 10) (Nat.digitChar (n % 10) :: acc) := by
        show (if n / 10 = 0 then _ else _) = _
        rw [if_neg h10]
      have hd : digitCount n = digitCount (n / 10) + 1 := by
        rw [digitCount]
        rw [if_neg (by omega : ¬ n < 10)]
      rw [hred, ih (n / 10) (Nat.digitChar (n % 10) :: acc) (by omega),
        hd, List.length_cons]
      omega

theorem length_toString_nat (n : Nat) : (toString n).length = digitCount n := by
  show ((Nat.toDigits 10 n).asString).length = digitCount n
  rw [List.length_asString]
  show (Nat.toDigitsCore 10 (n + 1) n []).length = digitCount n
  rw [toDigitsCore_length (n + 1) n [] (by omega)]
  rfl

theorem foldl_max_eq (l : List ℕ) : ∀ a : ℕ, l.foldl max a = max a (l.foldr max 0) := by
  induction l with
  | nil =>
    intro a
    show a = max a 0
    omega
  | cons b l ih =>
    intro a
    show List.foldl max (max a b) l = max a (max b (List.foldr max 0 l))
    rw [ih (max a b)]
    omega

theorem max?_getD_max (l : List ℕ) (d h : ℕ) (hdh : d = h) :
    (l.max?.getD d).max h = max h (l.foldr max 0) := by
  cases l with
  | nil =>
    subst hdh
    show max d d = max d 0
    omega
  | cons a t =>
    rw [List.max?_cons']
    show (List.foldl max a t).max h = _
    rw [foldl_max_eq, List.foldr_cons]
    exact Nat.max_comm _ _

theorem spaces_length (n : Nat) : (spaces n).length = n :=
  List.length_replicate n ' '

theorem string_length_append (a b : String) :
    (a ++ b).length = a.length + b.length :=
  List.length_append a.data b.data

theorem pad_cell_length (colored plain : String) (w : Nat) (al : Align) :
    (pad_cell colored plain w al).length
      = colored.length + (w - plain.length) := by
  cases al
  · show (colored ++ spaces (w - plain.length)).length = _
    rw [string_length_append, spaces_length]
  · show (spaces (w - plain.length) ++ colored).length = _
    rw [string_length_append, spaces_length]
    omega

/-- C9: each column width is the maximum plain-text length over the rows
and the header label (so never below the header length), the index width
is the decimal digit count of the largest row index (at least one), and
cell padding is computed from the plain text length alone, so the colored
text with its escape codes never shifts alignment. -/
theorem render_widths_spec :
    ∀ rows : List EntryRow,
      columnWidths rows =
        [max (digitCount (rows.length - 1)) 1,
         max "name".length
           ((rows.map fun r : EntryRow =>
             r.name_with_git_plain.length).foldr max 0),
         max "type".length
           ((rows.map fun r : EntryRow =>
             r.entry_type_plain.length).foldr max 0),
         max "size".length
           ((rows.map fun r : EntryRow => r.size_plain.length).foldr max 0),
         max "modified".length
           ((rows.map fun r : EntryRow =>
             r.modified_plain.length).foldr max 0)]
      ∧ ∀ (colored plain : String) (w : Nat) (al : Align),
          (pad_cell colored plain w al).length
            = colored.length + (w - plain.length) := by
  intro rows
  constructor
  · unfold columnWidths
    have h1 : (toString (rows.length - 1)).length.max 1
        = max (digitCount (rows.length - 1)) 1 := by
      rw [length_toString_nat]
    have h2 : (((rows.map fun r : EntryRow =>
          r.name_with_git_plain.length).max?).getD 4).max "name".length
        = max "name".length ((rows.map fun r : EntryRow =>
            r.name_with_git_plain.length).foldr max 0) :=
      max?_getD_max _ 4 _ rfl
    have h3 : (((rows.map fun r : EntryRow =>
          r.entry_type_plain.length).max?).getD 4).max "type".length
        = max "type".length ((rows.map fun r : EntryRow =>
            r.entry_type_plain.length).foldr max 0) :=
      max?_getD_max _ 4 _ rfl
    have h4 : (((rows.map fun r : EntryRow =>
          r.size_plain.length).max?).getD 4).max "size".length
        = max "size".length ((rows.map fun r : EntryRow =>
            r.size_plain.length).foldr max 0) :=
      max?_getD_max _ 4 _ rfl
    have h5 : (((rows.map fun r : EntryRow =>
          r.modified_plain.length).max?).getD 8).max "modified".length
        = max "modified".length ((rows.map fun r : EntryRow =>
            r.modified_plain.length).foldr max 0) :=
      max?_getD_max _ 8 _ rfl
    rw [h1, h2, h3, h4, h5]
  · intro colored plain w al
    exact pad_cell_length colored plain w al

/-- C9 witness: the widths of the empty listing are the header widths and
an index width of one. -/
theorem render_widths_spec_witness :
    columnWidths [] =
      [max (digitCount (([] : List EntryRow).length - 1)) 1,
       max "name".length ((([] : List EntryRow).map fun r : EntryRow =>
         r.name_with_git_plain.length).foldr max 0),
       max "type".length ((([] : List EntryRow).map fun r : EntryRow =>
         r.entry_type_plain.length).foldr max 0),
       max "size".length ((([] : List EntryRow).map fun r : EntryRow =>
         r.size_plain.length).foldr max 0),
       max "modified".length ((([] : List EntryRow).map fun r : EntryRow =>
         r.modified_plain.length).foldr max 0)] :=
  (render_widths_spec []).1

/-- C6 witness: the modified-mode comparator on two concrete rows is
unchanged by flipping their kinds. -/
theorem sort_modified_mode_properties_witness :
    rowCmp true { rowOf "a" false (some 1) with is_dir := true }
        { rowOf "b" false (some 2) with is_dir := false }
      = rowCmp true (rowOf "a" false (some 1)) (rowOf "b" false (some 2)) :=
  (sort_modified_mode_properties []).2 (rowOf "a" false (some 1))
    (rowOf "b" false (some 2)) true false
